import Mathlib

/-!
Verification of the AMBF blender add-on (ambf_addon.py) against its
natural-language specification.

The development shallowly embeds the relevant parts of the source:
scalar quantities that the source manipulates with exact comparisons are
modelled over the rationals; the trigonometric rotation kernel is modelled
over the reals.  Definitions follow the corresponding python functions and
keep their names where Lean permits.
-/

set_option maxHeartbeats 1000000

/-! ### Shape inference (get_major_axis, get_median_axis, get_minor_axis,
collision geometry derivation in generate_body_data) -/

/-- Bounding box dimensions triple (the argument dims of the axis
classification helpers). -/
structure Dims where
  d0 : ℚ
  d1 : ℚ
  d2 : ℚ
deriving DecidableEq

/-- Indexing a dimensions triple (dims[i] in the source). -/
def Dims.get (d : Dims) : Fin 3 → ℚ
  | 0 => d.d0
  | 1 => d.d1
  | 2 => d.d2

/-- Python abs on rationals, written with an executable comparison so that
kernel evaluation works: abs x = if x < 0 then -x else x. -/
def qabs (q : ℚ) : ℚ := if q < 0 then -q else q

/-- Pairwise absolute difference score list sum_diff computed identically in
get_major_axis (lines 287-289) and get_minor_axis (lines 319-321):
score i is the sum of absolute differences of dims[i] with the other two. -/
def sumDiff (d : Dims) : Fin 3 → ℚ
  | 0 => qabs (d.d0 - d.d1) + qabs (d.d0 - d.d2)
  | 1 => qabs (d.d1 - d.d0) + qabs (d.d1 - d.d2)
  | 2 => qabs (d.d2 - d.d0) + qabs (d.d2 - d.d1)

/-- Python sum_diff.index(max(sum_diff)): the first index attaining the
maximum of the three scores. -/
def idxOfMax3 (a b c : ℚ) : Fin 3 :=
  if b ≤ a ∧ c ≤ a then 0 else if c ≤ b then 1 else 2

/-- Python sum_diff.index(min(sum_diff)): the first index attaining the
minimum of the three scores. -/
def idxOfMin3 (a b c : ℚ) : Fin 3 :=
  if a ≤ b ∧ a ≤ c then 0 else if b ≤ c then 1 else 2

/-- The remaining-index trick used in get_minor_axis (lines 324-327) and
get_median_axis (lines 306-309): start from the list [1, 1, 1], zero the
entries at positions i and j, and take the first index attaining the
maximum of the modified list, i.e. the first index outside a pair.  When
i = j this returns the first index different from i. -/
def remIdx (i j : Fin 3) : Fin 3 :=
  if 0 ≠ i ∧ 0 ≠ j then 0 else if 1 ≠ i ∧ 1 ≠ j then 1 else 2

/-- Literal list transcription of the remaining-index trick, used to check
that remIdx is faithful to the python list manipulation. -/
def remIdxList (i j : Fin 3) : ℕ :=
  let l : List ℕ := (([1, 1, 1].set i 0).set j 0)
  l.indexOf (l.foldr max 0)

/-- Source get_major_axis (lines 284-296): if the three scores are all
equal return the z axis (index 2), otherwise the first index attaining
the maximal score. -/
def get_major_axis (d : Dims) : Fin 3 :=
  if sumDiff d 0 = sumDiff d 1 ∧ sumDiff d 1 = sumDiff d 2 then 2
  else idxOfMax3 (sumDiff d 0) (sumDiff d 1) (sumDiff d 2)

/-- Source get_minor_axis (lines 316-328): compute the first index of the
maximal score and the first index of the minimal score, then return the
remaining index (the python variable is even called median_idx). -/
def get_minor_axis (d : Dims) : Fin 3 :=
  remIdx (idxOfMax3 (sumDiff d 0) (sumDiff d 1) (sumDiff d 2))
    (idxOfMin3 (sumDiff d 0) (sumDiff d 1) (sumDiff d 2))

/-- Source get_median_axis (lines 302-311): the index remaining after
removing the results of get_major_axis and get_minor_axis. -/
def get_median_axis (d : Dims) : Fin 3 :=
  remIdx (get_major_axis d) (get_minor_axis d)

/-- Python round(x, 3): round to three decimals with ties going to the
even multiple (banker rounding), modelled exactly on the rationals. -/
def round3 (q : ℚ) : ℚ :=
  let y := q * 1000
  let f : ℤ := ⌊y⌋
  let r := y - f
  if r < 1 / 2 then (f : ℚ) / 1000
  else if 1 / 2 < r then ((f : ℚ) + 1) / 1000
  else (if 2 ∣ f then (f : ℚ) else (f : ℚ) + 1) / 1000

/-- Rounding of a dimensions triple: od in generate_body_data line 499. -/
def Dims.round3d (d : Dims) : Dims := ⟨round3 d.d0, round3 d.d1, round3 d.d2⟩

/-- Collision shape selector for primitive shapes (the non CONVEX_HULL/MESH
branch of generate_body_data). -/
inductive ColShape
  | BOX
  | SPHERE
  | CYLINDER
  | CAPSULE
  | CONE
deriving DecidableEq

/-- Derived collision geometry record (bcg in generate_body_data). -/
inductive ColGeom
  | boxG (x y z : ℚ)
  | sphereG (radius : ℚ)
  | axialG (radius height : ℚ) (axis : Fin 3)
deriving DecidableEq

/-- Source generate_body_data lines 497-518: derive the collision geometry
from the rounded bounding box dimensions.  Cylinder, capsule and cone use
half the dimension at the get_median_axis index as radius and the
dimension at the get_major_axis index as height; the sphere uses half the
maximal dimension. -/
def collision_geometry (ocs : ColShape) (dims : Dims) : ColGeom :=
  let od := dims.round3d
  match ocs with
  | .BOX => .boxG od.d0 od.d1 od.d2
  | .SPHERE => .sphereG (max od.d0 (max od.d1 od.d2) / 2)
  | .CYLINDER =>
      .axialG (od.get (get_median_axis od) / 2) (od.get (get_major_axis od)) (get_major_axis od)
  | .CAPSULE =>
      .axialG (od.get (get_median_axis od) / 2) (od.get (get_major_axis od)) (get_major_axis od)
  | .CONE =>
      .axialG (od.get (get_median_axis od) / 2) (od.get (get_major_axis od)) (get_major_axis od)

/-! ### Joint type classification and joint limits
(get_joint_axis, assign_joint_params) -/

/-- Blender rigid body constraint kinds handled by the exporter. -/
inductive BConstraintType
  | FIXED
  | HINGE
  | SLIDER
  | POINT
  | GENERIC
  | GENERIC_SPRING
deriving DecidableEq

/-- The fields of a blender rigid body constraint read by get_joint_axis and
assign_joint_params. -/
structure BConstraint where
  ctype : BConstraintType
  use_limit_lin_x : Bool
  use_limit_lin_y : Bool
  use_limit_lin_z : Bool
  use_limit_ang_x : Bool
  use_limit_ang_y : Bool
  use_limit_ang_z : Bool
  limit_lin_x_lower : ℚ
  limit_lin_x_upper : ℚ
  limit_lin_y_lower : ℚ
  limit_lin_y_upper : ℚ
  limit_lin_z_lower : ℚ
  limit_lin_z_upper : ℚ
  limit_ang_x_lower : ℚ
  limit_ang_x_upper : ℚ
  limit_ang_y_lower : ℚ
  limit_ang_y_upper : ℚ
  limit_ang_z_lower : ℚ
  limit_ang_z_upper : ℚ
  use_spring_x : Bool
  use_spring_y : Bool
  use_spring_z : Bool
  use_spring_ang_x : Bool
  use_spring_ang_y : Bool
  use_spring_ang_z : Bool
  spring_damping_x : ℚ
  spring_damping_y : ℚ
  spring_damping_z : ℚ
  spring_damping_ang_x : ℚ
  spring_damping_ang_y : ℚ
  spring_damping_ang_z : ℚ
  spring_stiffness_x : ℚ
  spring_stiffness_y : ℚ
  spring_stiffness_z : ℚ
  spring_stiffness_ang_x : ℚ
  spring_stiffness_ang_y : ℚ
  spring_stiffness_ang_z : ℚ
deriving DecidableEq

/-- No linear or angular limit flag of the constraint is active. -/
def noLimitFlagActive (c : BConstraint) : Prop :=
  c.use_limit_lin_x = false ∧ c.use_limit_lin_y = false ∧ c.use_limit_lin_z = false ∧
  c.use_limit_ang_x = false ∧ c.use_limit_ang_y = false ∧ c.use_limit_ang_z = false

instance (c : BConstraint) : Decidable (noLimitFlagActive c) := by
  unfold noLimitFlagActive; infer_instance

/-- Source get_joint_axis (lines 726-753).  The python function assigns the
local variable ax_idx in every branch except the GENERIC_SPRING branch
with no active limit flag: there ax_idx is read while unbound
(UnboundLocalError), modelled as none.  The GENERIC branch initialises
ax_idx to 2 before testing the flags. -/
def get_joint_axis (c : BConstraint) : Option (Fin 3) :=
  match c.ctype with
  | .HINGE => some 2
  | .SLIDER => some 0
  | .GENERIC =>
      if c.use_limit_lin_x || c.use_limit_ang_x then some 0
      else if c.use_limit_lin_y || c.use_limit_ang_y then some 1
      else if c.use_limit_lin_z || c.use_limit_ang_z then some 2
      else some 2
  | .GENERIC_SPRING =>
      if c.use_limit_lin_x || c.use_limit_ang_x then some 0
      else if c.use_limit_lin_y || c.use_limit_ang_y then some 1
      else if c.use_limit_lin_z || c.use_limit_ang_z then some 2
      else none
  | .POINT => some 2
  | .FIXED => some 2

/-- The state of the joint limits entry of the exported joint record after
assign_joint_params: the whole entry deleted, the entry kept but emptied of
its low/high keys, or the entry holding rounded bounds. -/
inductive LimitsOut
  | removed
  | emptied
  | bounds (low high : ℚ)
deriving DecidableEq

/-- The fields of the exported joint record produced by assign_joint_params. -/
structure JointParams where
  jtype : String
  limits : LimitsOut
  damping : Option ℚ
  stiffness : Option ℚ
deriving DecidableEq

/-- The trailing limits step of assign_joint_params (lines 887-897): delete
the joint limits entry for fixed and p2p, delete its low and high keys for
continuous, and otherwise store the branch limit values rounded to three
decimals. -/
def finalize_limits (t : String) (lower higher : ℚ) : LimitsOut :=
  if t = "fixed" ∨ t = "p2p" then .removed
  else if t = "continuous" then .emptied
  else .bounds (round3 lower) (round3 higher)

/-- Source assign_joint_params (lines 785-897).  Each branch assigns the
joint type and, where applicable, lower/higher limits and spring
damping/stiffness; the final limits step then reads the joint type.  For a
GENERIC or GENERIC_SPRING constraint with no active limit flag the type is
never assigned, so reading it raises (KeyError), modelled as none.  The
branches that assign no limit values (continuous, p2p, fixed) pass an unused
placeholder 0 to finalize_limits, which ignores it for those types. -/
def assign_joint_params (c : BConstraint) : Option JointParams :=
  match c.ctype with
  | .HINGE =>
      if c.use_limit_ang_z then
        some ⟨"revolute", finalize_limits "revolute" c.limit_ang_z_lower c.limit_ang_z_upper,
          none, none⟩
      else some ⟨"continuous", finalize_limits "continuous" 0 0, none, none⟩
  | .SLIDER =>
      some ⟨"prismatic", finalize_limits "prismatic" c.limit_lin_x_lower c.limit_lin_x_upper,
        none, none⟩
  | .GENERIC =>
      if c.use_limit_lin_x then
        some ⟨"prismatic", finalize_limits "prismatic" c.limit_lin_x_lower c.limit_lin_x_upper,
          none, none⟩
      else if c.use_limit_lin_y then
        some ⟨"prismatic", finalize_limits "prismatic" c.limit_lin_y_lower c.limit_lin_y_upper,
          none, none⟩
      else if c.use_limit_lin_z then
        some ⟨"prismatic", finalize_limits "prismatic" c.limit_lin_z_lower c.limit_lin_z_upper,
          none, none⟩
      else if c.use_limit_ang_x then
        some ⟨"revolute", finalize_limits "revolute" c.limit_ang_x_lower c.limit_ang_x_upper,
          none, none⟩
      else if c.use_limit_ang_y then
        some ⟨"revolute", finalize_limits "revolute" c.limit_ang_y_lower c.limit_ang_y_upper,
          none, none⟩
      else if c.use_limit_ang_z then
        some ⟨"revolute", finalize_limits "revolute" c.limit_ang_z_lower c.limit_ang_z_upper,
          none, none⟩
      else none
  | .GENERIC_SPRING =>
      if c.use_limit_lin_x then
        some ⟨"linear spring", finalize_limits "linear spring" c.limit_lin_x_lower c.limit_lin_x_upper,
          if c.use_spring_x then some c.spring_damping_x else none,
          if c.use_spring_x then some c.spring_stiffness_x else none⟩
      else if c.use_limit_lin_y then
        some ⟨"linear spring", finalize_limits "linear spring" c.limit_lin_y_lower c.limit_lin_y_upper,
          if c.use_spring_y then some c.spring_damping_y else none,
          if c.use_spring_y then some c.spring_stiffness_y else none⟩
      else if c.use_limit_lin_z then
        some ⟨"linear spring", finalize_limits "linear spring" c.limit_lin_z_lower c.limit_lin_z_upper,
          if c.use_spring_z then some c.spring_damping_z else none,
          if c.use_spring_z then some c.spring_stiffness_z else none⟩
      else if c.use_limit_ang_x then
        some ⟨"torsion spring", finalize_limits "torsion spring" c.limit_ang_x_lower c.limit_ang_x_upper,
          if c.use_spring_ang_x then some c.spring_damping_ang_x else none,
          if c.use_spring_ang_x then some c.spring_stiffness_ang_x else none⟩
      else if c.use_limit_ang_y then
        some ⟨"torsion spring", finalize_limits "torsion spring" c.limit_ang_y_lower c.limit_ang_y_upper,
          if c.use_spring_ang_y then some c.spring_damping_ang_y else none,
          if c.use_spring_ang_y then some c.spring_stiffness_ang_y else none⟩
      else if c.use_limit_ang_z then
        some ⟨"torsion spring", finalize_limits "torsion spring" c.limit_ang_z_lower c.limit_ang_z_upper,
          if c.use_spring_ang_z then some c.spring_damping_ang_z else none,
          if c.use_spring_ang_z then some c.spring_stiffness_ang_z else none⟩
      else none
  | .POINT => some ⟨"p2p", finalize_limits "p2p" 0 0, none, none⟩
  | .FIXED => some ⟨"fixed", finalize_limits "fixed" 0 0, none, none⟩

/-- The lower/upper limit pair selected by the branch of assign_joint_params
that assigns bounds, mirroring the same flag priority chain; none when no
branch assigns bounds (fixed, p2p, continuous, or no active flag). -/
def activeLimitPair (c : BConstraint) : Option (ℚ × ℚ) :=
  match c.ctype with
  | .HINGE =>
      if c.use_limit_ang_z then some (c.limit_ang_z_lower, c.limit_ang_z_upper) else none
  | .SLIDER => some (c.limit_lin_x_lower, c.limit_lin_x_upper)
  | .GENERIC =>
      if c.use_limit_lin_x then some (c.limit_lin_x_lower, c.limit_lin_x_upper)
      else if c.use_limit_lin_y then some (c.limit_lin_y_lower, c.limit_lin_y_upper)
      else if c.use_limit_lin_z then some (c.limit_lin_z_lower, c.limit_lin_z_upper)
      else if c.use_limit_ang_x then some (c.limit_ang_x_lower, c.limit_ang_x_upper)
      else if c.use_limit_ang_y then some (c.limit_ang_y_lower, c.limit_ang_y_upper)
      else if c.use_limit_ang_z then some (c.limit_ang_z_lower, c.limit_ang_z_upper)
      else none
  | .GENERIC_SPRING =>
      if c.use_limit_lin_x then some (c.limit_lin_x_lower, c.limit_lin_x_upper)
      else if c.use_limit_lin_y then some (c.limit_lin_y_lower, c.limit_lin_y_upper)
      else if c.use_limit_lin_z then some (c.limit_lin_z_lower, c.limit_lin_z_upper)
      else if c.use_limit_ang_x then some (c.limit_ang_x_lower, c.limit_ang_x_upper)
      else if c.use_limit_ang_y then some (c.limit_ang_y_lower, c.limit_ang_y_upper)
      else if c.use_limit_ang_z then some (c.limit_ang_z_lower, c.limit_ang_z_upper)
      else none
  | .POINT => none
  | .FIXED => none

/-! ### Collision group import (load_blender_rigid_body lines 1342-1350 and
load_ambf_rigid_body lines 1399-1407) -/

/-- Shared loop body of both collision group loaders: clear membership slot
0, then for each listed index set the slot if the index lies in [0, 20),
otherwise print a warning (counted) and continue with the next index. -/
def set_collision_groups (groups : List ℤ) (flags : Fin 20 → Bool) :
    (Fin 20 → Bool) × ℕ :=
  groups.foldl
    (fun st g =>
      if h : 0 ≤ g ∧ g < 20 then
        (Function.update st.1 ⟨g.toNat, by omega⟩ true, st.2)
      else (st.1, st.2 + 1))
    (Function.update flags 0 false, 0)

/-- Source load_blender_rigid_body lines 1342-1350 (legacy mode). -/
def load_blender_collision_groups (groups : List ℤ) (flags : Fin 20 → Bool) :
    (Fin 20 → Bool) × ℕ :=
  set_collision_groups groups flags

/-- Source load_ambf_rigid_body lines 1399-1407 (native mode); the loop body
is textually identical to the legacy one. -/
def load_ambf_collision_groups (groups : List ℤ) (flags : Fin 20 → Bool) :
    (Fin 20 → Bool) × ℕ :=
  set_collision_groups groups flags

/-! ### Alignment offset sanity check fragment
(adjust_body_pivots_and_axis lines 1541-1556) -/

/-- Rational 3-vector used for the exact-arithmetic fragments of the
alignment correction pass. -/
structure V3Q where
  x : ℚ
  y : ℚ
  z : ℚ
deriving DecidableEq

/-- Cross product of rational 3-vectors. -/
def V3Q.cross (a b : V3Q) : V3Q :=
  ⟨a.y * b.z - a.z * b.y, a.z * b.x - a.x * b.z, a.x * b.y - a.y * b.x⟩

/-- Squared euclidean length; for nonnegative thresholds t the source
comparison length greater than t is equivalent to normSq greater than t
squared, which keeps the embedding rational. -/
def V3Q.normSq (v : V3Q) : ℚ := v.x ^ 2 + v.y ^ 2 + v.z ^ 2

/-- Source round_vec (lines 80-83): round each component to 3 decimals. -/
def round_vec (v : V3Q) : V3Q := ⟨round3 v.x, round3 v.y, round3 v.z⟩

/-- Outcome of the alignment-offset fragment: whether the warning printed,
whether the correction rotation R_ao was applied to the child geometry, and
the angle/axis of that rotation. -/
structure AOCheck where
  warned : Bool
  applied : Bool
  appliedAngle : ℚ
  appliedAxis : V3Q
deriving DecidableEq

/-- Source adjust_body_pivots_and_axis lines 1541-1556: the residual axis
d_axis is rounded (round_vec), the sanity check compares the cross product
of d_axis with the stored child axis against 0.1 and warns only when the
residual angle also exceeds 0.1 in absolute value (the comparison
v_diff.length greater than 0.1 is expressed on squared lengths); the angle
is negated when any component of d_axis is negative, and the correction
rotation about the canonical constraint axis is applied exactly when the
angle exceeds 0.1 in absolute value.  The fragment never raises. -/
def ao_sanity_check (d_axis_raw child_axis constraint_axis : V3Q) (d_angle : ℚ) :
    AOCheck :=
  let d_axis := round_vec d_axis_raw
  let v_diff := V3Q.cross d_axis child_axis
  let warned : Bool := decide ((1 / 10 : ℚ) ^ 2 < v_diff.normSq ∧ (1 / 10 : ℚ) < qabs d_angle)
  let d_angle2 := if d_axis.x < 0 ∨ d_axis.y < 0 ∨ d_axis.z < 0 then -d_angle else d_angle
  { warned := warned
    applied := decide ((1 / 10 : ℚ) < qabs d_angle2)
    appliedAngle := d_angle2
    appliedAxis := constraint_axis }

/-! ### The alignment correction pass loop and the import phase order
(adjust_body_pivots_and_axis lines 1467-1475, execute lines 1979-1989) -/

/-- The per-joint data that drives the control flow of the alignment pass:
whether the record has a child pivot entry and whether it is detached. -/
structure JointDoc where
  jname : String
  hasChildPivot : Bool
  detached : Bool
deriving DecidableEq

/-- Source adjust_body_pivots_and_axis lines 1467-1475: iterate over the
document joint list; a record without a child pivot entry is skipped; a
detached record triggers a return statement that exits the whole method, so
nothing after it is processed; every other record has its child body
adjusted.  The function returns the list of joints actually adjusted, in
order. -/
def adjust_body_pivots_and_axis : List JointDoc → List JointDoc
  | [] => []
  | j :: rest =>
      if j.hasChildPivot then
        if j.detached then []
        else j :: adjust_body_pivots_and_axis rest
      else adjust_body_pivots_and_axis rest

/-- Spec-intended per-joint skip (the log message at the return site says
only that the detached joint itself needs no adjustment): continue with the
remaining joints instead of returning. -/
def adjust_body_pivots_and_axis_intended : List JointDoc → List JointDoc
  | [] => []
  | j :: rest =>
      if j.hasChildPivot then
        if j.detached then adjust_body_pivots_and_axis_intended rest
        else j :: adjust_body_pivots_and_axis_intended rest
      else adjust_body_pivots_and_axis_intended rest

/-- Events of the import pipeline in execution order. -/
inductive LoadEvent
  | loadBody (n : String)
  | adjustJoint (n : String)
  | createJoint (n : String)
deriving DecidableEq

/-- The parts of a loaded ADF document that drive the import phases. -/
structure AdfDoc where
  bodies : List String
  joints : List JointDoc

/-- Source execute (lines 1979-1989): load every body in document order,
then, exactly when legacy loading and the adjust-joint-pivots option are
both enabled, run the alignment correction pass, and only then create every
joint in document order. -/
def executeTrace (legacy adjust : Bool) (doc : AdfDoc) : List LoadEvent :=
  doc.bodies.map LoadEvent.loadBody
    ++ (if legacy && adjust then
          (adjust_body_pivots_and_axis doc.joints).map (fun j => LoadEvent.adjustJoint j.jname)
        else [])
    ++ doc.joints.map (fun j => LoadEvent.createJoint j.jname)

/-! ### Hierarchical traversal (get_grand_parent, downward_tree_pass,
populate_heirarchial_tree, lines 225-263) -/

/-- A scene graph over n objects: single optional parent per object plus
the derived children lists the host exposes. -/
structure SceneGraph (n : ℕ) where
  parent : Fin n → Option (Fin n)
  children : Fin n → List (Fin n)

/-- The children lists agree with the parent map and repeat no element. -/
def SceneGraph.Coherent {n : ℕ} (S : SceneGraph n) : Prop :=
  (∀ c p : Fin n, c ∈ S.children p ↔ S.parent c = some p) ∧
  ∀ p : Fin n, (S.children p).Nodup

/-- Acyclicity of the parent links, witnessed by a rank strictly decreasing
from child to parent. -/
def SceneGraph.RankedBy {n : ℕ} (S : SceneGraph n) (rank : Fin n → ℕ) : Prop :=
  ∀ c p : Fin n, S.parent c = some p → rank p < rank c

instance {n : ℕ} (S : SceneGraph n) : Decidable S.Coherent := by
  unfold SceneGraph.Coherent
  infer_instance

instance {n : ℕ} (S : SceneGraph n) (rank : Fin n → ℕ) : Decidable (S.RankedBy rank) := by
  unfold SceneGraph.RankedBy
  infer_instance

/-- Source get_grand_parent (lines 225-229) with explicit fuel: follow
parent links upward; with fuel at least n this reaches the root of an
acyclic graph because parent chains repeat no node. -/
def grandParentAux {n : ℕ} (S : SceneGraph n) : ℕ → Fin n → Fin n
  | 0, b => b
  | f + 1, b =>
      match S.parent b with
      | none => b
      | some p => grandParentAux S f p

/-- Source get_grand_parent: the fuelled ascent with fuel n. -/
def get_grand_parent {n : ℕ} (S : SceneGraph n) (b : Fin n) : Fin n :=
  grandParentAux S n b

/-- Traversal state: the accumulated ordered body list and the visited
flags (_heirarichal_bodies_list and _added_bodies_list). -/
def TState (n : ℕ) := List (Fin n) × (Fin n → Bool)

/-- Source downward_tree_pass (lines 232-242) with explicit fuel: stop on a
visited node, otherwise append the node, mark it visited and recurse into
its children in order. -/
def downward_tree_pass {n : ℕ} (S : SceneGraph n) : ℕ → Fin n → TState n → TState n
  | 0, _, st => st
  | f + 1, b, st =>
      if st.2 b = true then st
      else
        (S.children b).foldl (fun acc c => downward_tree_pass S f c acc)
          (st.1 ++ [b], Function.update st.2 b true)

/-- Folding downward_tree_pass (with the fuel n + 1 used by the traversal)
over an explicit list of root nodes, starting from the empty state. -/
def populateRoots {n : ℕ} (S : SceneGraph n) (rl : List (Fin n)) : TState n :=
  rl.foldl (fun st r => downward_tree_pass S (n + 1) r st) ([], fun _ => false)

/-- Source populate_heirarchial_tree main loop (lines 255-258): for each
object of the scene, ascend to its root and run the downward pass from
that root. -/
def populateFromObjs {n : ℕ} (S : SceneGraph n) (objs : List (Fin n)) : TState n :=
  objs.foldl (fun st o => downward_tree_pass S (n + 1) (get_grand_parent S o) st)
    ([], fun _ => false)

/-- Source populate_heirarchial_tree (lines 245-263): the ordered body list
obtained by iterating over all scene objects. -/
def populate_heirarchial_tree {n : ℕ} (S : SceneGraph n) : List (Fin n) :=
  (populateFromObjs S (List.finRange n)).1

/-- Keep only the first occurrence of each element of a list. -/
def dedupKeepFirst {α : Type} [DecidableEq α] : List α → List α
  | [] => []
  | x :: xs => x :: dedupKeepFirst (xs.filter (fun y => y ≠ x))
termination_by l => l.length
decreasing_by
  simp only [List.length_cons]
  exact Nat.lt_succ_of_le (List.length_filter_le _ _)

/-- p is a strict ancestor of c through the parent links. -/
def AncestorOf {n : ℕ} (S : SceneGraph n) (p c : Fin n) : Prop :=
  Relation.TransGen (fun a b => S.parent b = some a) p c

/-- Traversal state invariant: the accumulated list repeats no element and
the visited flags match membership in the list. -/
def TInv {n : ℕ} (st : TState n) : Prop :=
  st.1.Nodup ∧ ∀ v, st.2 v = true ↔ v ∈ st.1

/-- Closedness of the visited set except at the nodes satisfying E: every
visited node outside E has all its children visited. -/
def ClosedExc {n : ℕ} (S : SceneGraph n) (E : Fin n → Prop) (st : TState n) : Prop :=
  ∀ v, st.2 v = true → ¬ E v → ∀ c ∈ S.children v, st.2 c = true

/-- Parent-precedes invariant: every listed node with a parent appears in
the list strictly after its parent. -/
def Orderly {n : ℕ} (S : SceneGraph n) (st : TState n) : Prop :=
  ∀ v ∈ st.1, ∀ q, S.parent v = some q →
    q ∈ st.1 ∧ st.1.indexOf q < st.1.indexOf v

/-- Number of nodes of rank at least the rank of b: a fuel measure that
strictly decreases from a node to each of its children. -/
def measDown {n : ℕ} (rank : Fin n → ℕ) (b : Fin n) : ℕ :=
  (Finset.univ.filter (fun x => rank b ≤ rank x)).card

/-- Number of nodes of rank at most the rank of b: a fuel measure that
strictly decreases from a node to its parent. -/
def measUp {n : ℕ} (rank : Fin n → ℕ) (b : Fin n) : ℕ :=
  (Finset.univ.filter (fun x => rank x ≤ rank b)).card

/-! ### Geometry kernel over the reals (skew_mat, vec_norm,
rot_matrix_from_vecs, get_rot_mat_from_vecs, mathutils primitives) -/

/-- Real 3-vector. -/
structure V3 where
  x : ℝ
  y : ℝ
  z : ℝ

/-- Dot product. -/
def V3.dot (a b : V3) : ℝ := a.x * b.x + a.y * b.y + a.z * b.z

/-- Cross product (mathutils Vector.cross). -/
def V3.cross (a b : V3) : V3 :=
  ⟨a.y * b.z - a.z * b.y, a.z * b.x - a.x * b.z, a.x * b.y - a.y * b.x⟩

/-- Vector addition. -/
def V3.add (a b : V3) : V3 := ⟨a.x + b.x, a.y + b.y, a.z + b.z⟩

/-- Vector negation. -/
def V3.neg (a : V3) : V3 := ⟨-a.x, -a.y, -a.z⟩

instance : Add V3 := ⟨V3.add⟩

instance : Neg V3 := ⟨V3.neg⟩

/-- Source vec_norm (lines 76-77): euclidean length. -/
noncomputable def vec_norm (v : V3) : ℝ := Real.sqrt (v.x ^ 2 + v.y ^ 2 + v.z ^ 2)

/-- Normalisation of a vector, as performed by mathutils on rotation axes. -/
noncomputable def normalize3 (v : V3) : V3 :=
  ⟨v.x / vec_norm v, v.y / vec_norm v, v.z / vec_norm v⟩

/-- A unit vector for the dot product. -/
def UnitV (v : V3) : Prop := V3.dot v v = 1

/-- mathutils Vector.angle: the arc cosine of the dot product divided by
the product of the lengths, with the quotient clamped into the domain of
the arc cosine (Real.arccos already clamps out-of-range arguments exactly
as mathutils does). -/
noncomputable def vangle (a b : V3) : ℝ :=
  Real.arccos (V3.dot a b / (vec_norm a * vec_norm b))

/-- Real 3 by 3 matrix with explicit entries. -/
structure M3 where
  m00 : ℝ
  m01 : ℝ
  m02 : ℝ
  m10 : ℝ
  m11 : ℝ
  m12 : ℝ
  m20 : ℝ
  m21 : ℝ
  m22 : ℝ

/-- Identity matrix. -/
def M3.id : M3 := ⟨1, 0, 0, 0, 1, 0, 0, 0, 1⟩

/-- Entrywise matrix sum. -/
def M3.add (a b : M3) : M3 :=
  ⟨a.m00 + b.m00, a.m01 + b.m01, a.m02 + b.m02,
   a.m10 + b.m10, a.m11 + b.m11, a.m12 + b.m12,
   a.m20 + b.m20, a.m21 + b.m21, a.m22 + b.m22⟩

/-- Scalar multiple of a matrix. -/
def M3.smul (s : ℝ) (a : M3) : M3 :=
  ⟨s * a.m00, s * a.m01, s * a.m02,
   s * a.m10, s * a.m11, s * a.m12,
   s * a.m20, s * a.m21, s * a.m22⟩

/-- Matrix product. -/
def M3.mul (a b : M3) : M3 :=
  ⟨a.m00 * b.m00 + a.m01 * b.m10 + a.m02 * b.m20,
   a.m00 * b.m01 + a.m01 * b.m11 + a.m02 * b.m21,
   a.m00 * b.m02 + a.m01 * b.m12 + a.m02 * b.m22,
   a.m10 * b.m00 + a.m11 * b.m10 + a.m12 * b.m20,
   a.m10 * b.m01 + a.m11 * b.m11 + a.m12 * b.m21,
   a.m10 * b.m02 + a.m11 * b.m12 + a.m12 * b.m22,
   a.m20 * b.m00 + a.m21 * b.m10 + a.m22 * b.m20,
   a.m20 * b.m01 + a.m21 * b.m11 + a.m22 * b.m21,
   a.m20 * b.m02 + a.m21 * b.m12 + a.m22 * b.m22⟩

instance : Add M3 := ⟨M3.add⟩

instance : Mul M3 := ⟨M3.mul⟩

instance : SMul ℝ M3 := ⟨M3.smul⟩

/-- Matrix acting on a column vector. -/
def M3.mulVec (a : M3) (v : V3) : V3 :=
  ⟨a.m00 * v.x + a.m01 * v.y + a.m02 * v.z,
   a.m10 * v.x + a.m11 * v.y + a.m12 * v.z,
   a.m20 * v.x + a.m21 * v.y + a.m22 * v.z⟩

/-- Column 2 of a matrix (the axis column read off t_c_p by
compute_pivot_and_axis for z-axis joints). -/
def M3.col2 (a : M3) : V3 := ⟨a.m02, a.m12, a.m22⟩

/-- Determinant. -/
def M3.det (a : M3) : ℝ :=
  a.m00 * (a.m11 * a.m22 - a.m12 * a.m21)
    - a.m01 * (a.m10 * a.m22 - a.m12 * a.m20)
    + a.m02 * (a.m10 * a.m21 - a.m11 * a.m20)

/-- Matrix inverse by the adjugate formula (mathutils Matrix.invert on an
invertible matrix). -/
noncomputable def M3.inv (a : M3) : M3 :=
  M3.smul (1 / a.det)
    ⟨a.m11 * a.m22 - a.m12 * a.m21, -(a.m01 * a.m22 - a.m02 * a.m21),
       a.m01 * a.m12 - a.m02 * a.m11,
     -(a.m10 * a.m22 - a.m12 * a.m20), a.m00 * a.m22 - a.m02 * a.m20,
       -(a.m00 * a.m12 - a.m02 * a.m10),
     a.m10 * a.m21 - a.m11 * a.m20, -(a.m00 * a.m21 - a.m01 * a.m20),
       a.m00 * a.m11 - a.m01 * a.m10⟩

/-- Source skew_mat (lines 60-73): the cross product matrix. -/
def skew_mat (v : V3) : M3 :=
  ⟨0, -v.z, v.y,
   v.z, 0, -v.x,
   -v.y, v.x, 0⟩

/-- Outer product of two vectors. -/
def outer3 (a b : V3) : M3 :=
  ⟨a.x * b.x, a.x * b.y, a.x * b.z,
   a.y * b.x, a.y * b.y, a.y * b.z,
   a.z * b.x, a.z * b.y, a.z * b.z⟩

/-- mathutils Matrix.Rotation(angle, size, axis): normalise the axis and
build the standard axis-angle rotation matrix
cos angle I + sin angle K + (1 - cos angle) u uT. -/
noncomputable def rotAA (angle : ℝ) (axis : V3) : M3 :=
  (Real.cos angle • M3.id + Real.sin angle • skew_mat (normalize3 axis))
    + (1 - Real.cos angle) • outer3 (normalize3 axis) (normalize3 axis)

/-- Source rot_matrix_from_vecs (lines 87-108): identity when the dot is
within 0.1 of 1; for a dot within 0.1 of -1 rotate by the angle between the
vectors about the cross of v1 with the x axis when the angle from v1 to the
x axis lies strictly between 0.1 and 3.13 (else the y axis); otherwise the
Rodrigues formula built from the skew matrix of the cross product. -/
noncomputable def rot_matrix_from_vecs (v1 v2 : V3) : M3 :=
  if 1 - V3.dot v1 v2 < 0.1 then M3.id
  else if 1 + V3.dot v1 v2 < 0.1 then
    (if 0.1 < |vangle v1 ⟨1, 0, 0⟩| ∧ |vangle v1 ⟨1, 0, 0⟩| < 3.13 then
        rotAA (vangle v1 v2) (V3.cross v1 ⟨1, 0, 0⟩)
      else rotAA (vangle v1 v2) (V3.cross v1 ⟨0, 1, 0⟩))
  else
    M3.id + skew_mat (V3.cross v1 v2)
      + ((1 - V3.dot v1 v2) / vec_norm (V3.cross v1 v2) ^ 2)
          • (skew_mat (V3.cross v1 v2) * skew_mat (V3.cross v1 v2))

/-- Source get_rot_mat_from_vecs (lines 113-136): choose the rotation axis
by the magnitude of the angle (y axis below 0.1, the x/y reference scheme
at or above 3.13, the cross product otherwise) and return the rotation by
the angle about that axis together with the angle. -/
noncomputable def get_rot_mat_from_vecs (vecA vecB : V3) : M3 × ℝ :=
  (rotAA (vangle vecA vecB)
      (if |vangle vecA vecB| ≤ 0.1 then (⟨0, 1, 0⟩ : V3)
       else if 3.13 ≤ |vangle vecA vecB| then
         (if 0.1 < |vangle vecA ⟨1, 0, 0⟩| ∧ |vangle vecA ⟨1, 0, 0⟩| < 3.13 then
            V3.cross vecA ⟨1, 0, 0⟩
          else V3.cross vecA ⟨0, 1, 0⟩)
       else V3.cross vecA vecB),
    vangle vecA vecB)

/-- mathutils Matrix.to_quaternion().to_axis_angle() for a rotation matrix
whose angle lies in (0, pi): the axis is the normalised vector of the
antisymmetric part and the angle is the arc cosine of (trace - 1) / 2. -/
noncomputable def to_axis_angle (R : M3) : V3 × ℝ :=
  (normalize3 ⟨(R.m21 - R.m12) / 2, (R.m02 - R.m20) / 2, (R.m10 - R.m01) / 2⟩,
    Real.arccos ((R.m00 + R.m11 + R.m22 - 1) / 2))

/-- Source generate_joint_data lines 661-697, with the stored values exact
(the 3-decimal rounding of the emitted document is the numeric tolerance
the spec speaks of): build the canonical child-axis-to-parent-axis rotation
(rot_matrix_from_vecs), invert it, compose with the true child-in-parent
rotation, extract the axis-angle of the residual, and when the angle
exceeds 0.01 in magnitude export it with the sign fixed by comparing the
residual axis with the child axis; in the remaining axis case the source
prints an error and exports no offset (none). -/
noncomputable def compute_joint_offset (child_axis parent_axis : V3)
    (r_c_p_blender : M3) : Option ℝ :=
  let r_angular_offset := (rot_matrix_from_vecs child_axis parent_axis).inv * r_c_p_blender
  let oa := to_axis_angle r_angular_offset
  if 0.01 < |oa.2| then
    if |1 - V3.dot child_axis oa.1| < 0.1 then some oa.2
    else if |1 + V3.dot child_axis oa.1| < 0.1 then some (-oa.2)
    else none
  else none

/-- Homogeneous rigid transform: rotation part and translation part, with
multiplication and inverse as mathutils performs them on 4 by 4 matrices
whose last row is 0 0 0 1. -/
structure T4 where
  r : M3
  t : V3

/-- Product of homogeneous transforms. -/
def T4.mul (a b : T4) : T4 := ⟨a.r * b.r, a.r.mulVec b.t + a.t⟩

instance : Mul T4 := ⟨T4.mul⟩

/-- Identity transform. -/
def T4.idT : T4 := ⟨M3.id, ⟨0, 0, 0⟩⟩

/-- Pure rotation transform. -/
def T4.ofRot (m : M3) : T4 := ⟨m, ⟨0, 0, 0⟩⟩

/-- Pure translation transform. -/
def T4.ofTrans (v : V3) : T4 := ⟨M3.id, v⟩

/-- Inverse of an invertible homogeneous transform. -/
noncomputable def T4.inv (a : T4) : T4 := ⟨a.r.inv, (a.r.inv.mulVec a.t).neg⟩

/-- Source get_child_in_parent_transform (lines 1717-1761): parent world
transform, per-parent alignment correction, parent pivot translation,
offset rotation about the parent axis, rotation from child axis to parent
axis, inverse child pivot translation, multiplied in source order. -/
noncomputable def get_child_in_parent_transform (T_p_w T_p_w_off : T4)
    (parent_pivot parent_axis child_pivot child_axis : V3) (offset_angle : ℝ) : T4 :=
  T_p_w * T_p_w_off * T4.ofTrans parent_pivot
    * T4.ofRot (rotAA offset_angle parent_axis)
    * T4.ofRot (get_rot_mat_from_vecs child_axis parent_axis).1
    * (T4.ofTrans child_pivot).inv

/-- The canonical basis vectors (joint_axis built by get_joint_axis). -/
def basisV : Fin 3 → V3
  | 0 => ⟨1, 0, 0⟩
  | 1 => ⟨0, 1, 0⟩
  | 2 => ⟨0, 0, 1⟩

/-- The reference axis of claim C3 read literally: the y axis when the
angle from a to the x axis lies within 0.1 to 3.13 radians, the x axis
otherwise. -/
noncomputable def claimC3Ref (a : V3) : V3 :=
  if 0.1 < vangle a ⟨1, 0, 0⟩ ∧ vangle a ⟨1, 0, 0⟩ < 3.13 then ⟨0, 1, 0⟩ else ⟨1, 0, 0⟩

/-- The concrete true child-in-parent rotation of the C1 counterexample
scene: the rotation by the angle with cosine 3/5 about the unit axis
(0, 7/25, 24/25); all entries are rational. -/
noncomputable def Rcp0 : M3 :=
  ⟨3/5, -96/125, 28/125,
   96/125, 1973/3125, 336/3125,
   -28/125, 336/3125, 3027/3125⟩

/-- A constraint record with a given kind, every flag cleared and every
numeric field zero. -/
def trivialConstraint (t : BConstraintType) : BConstraint :=
  ⟨t, false, false, false, false, false, false,
   0, 0, 0, 0, 0, 0, 0, 0, 0, 0, 0, 0,
   false, false, false, false, false, false,
   0, 0, 0, 0, 0, 0, 0, 0, 0, 0, 0, 0⟩

/-- A hinge constraint with its angular z limit active (exports as a
revolute joint). -/
def hingeZc : BConstraint := { trivialConstraint .HINGE with use_limit_ang_z := true }

/-- The joint record the exporter produces for hingeZc. -/
def hingeP : JointParams := ⟨"revolute", finalize_limits "revolute" 0 0, none, none⟩

/-- A three-body scene: bodies 1 and 2 are children of body 0. -/
def demoScene : SceneGraph 3 :=
  ⟨fun i => if i = 0 then none else some 0,
   fun i => if i = 0 then [1, 2] else []⟩

/-! ### Helper lemmas -/

/-- remIdx agrees with the literal python list manipulation. -/
theorem remIdx_eq_remIdxList : ∀ i j : Fin 3, (remIdx i j : ℕ) = remIdxList i j := by
  decide

/-- The remaining index differs from both removed indices. -/
theorem remIdx_ne : ∀ i j : Fin 3, remIdx i j ≠ i ∧ remIdx i j ≠ j := by
  decide

/-- Removing an index and the remainder of a distinct pair gives back the
other element of the pair. -/
theorem remIdx_remIdx : ∀ i j : Fin 3, i ≠ j → remIdx i (remIdx i j) = j := by
  decide

/-- Three pairwise distinct indices exhaust Fin 3. -/
theorem fin3_exhaust : ∀ a b c : Fin 3, a ≠ b → a ≠ c → b ≠ c →
    ∀ k : Fin 3, k = a ∨ k = b ∨ k = c := by
  decide

/-- idxOfMax3 attains the maximum of the three values. -/
theorem idxOfMax3_max (f : Fin 3 → ℚ) :
    ∀ k, f k ≤ f (idxOfMax3 (f 0) (f 1) (f 2)) := by
  intro k
  unfold idxOfMax3
  split_ifs with h1 h2
  · fin_cases k
    · exact le_rfl
    · exact h1.1
    · exact h1.2
  · rcases not_and_or.mp h1 with h | h
    · fin_cases k
      · exact le_of_lt (lt_of_not_le h)
      · exact le_rfl
      · exact h2
    · fin_cases k
      · exact le_trans (le_of_lt (lt_of_not_le h)) h2
      · exact le_rfl
      · exact h2
  · have h2' : f 1 < f 2 := lt_of_not_le h2
    rcases not_and_or.mp h1 with h | h
    · fin_cases k
      · exact le_trans (le_of_lt (lt_of_not_le h)) (le_of_lt h2')
      · exact le_of_lt h2'
      · exact le_rfl
    · fin_cases k
      · exact le_of_lt (lt_of_not_le h)
      · exact le_of_lt h2'
      · exact le_rfl

/-- idxOfMin3 attains the minimum of the three values. -/
theorem idxOfMin3_min (f : Fin 3 → ℚ) :
    ∀ k, f (idxOfMin3 (f 0) (f 1) (f 2)) ≤ f k := by
  intro k
  unfold idxOfMin3
  split_ifs with h1 h2
  · fin_cases k
    · exact le_rfl
    · exact h1.1
    · exact h1.2
  · rcases not_and_or.mp h1 with h | h
    · fin_cases k
      · exact le_of_lt (lt_of_not_le h)
      · exact le_rfl
      · exact h2
    · fin_cases k
      · exact le_trans h2 (le_of_lt (lt_of_not_le h))
      · exact le_rfl
      · exact h2
  · have h2' : f 2 < f 1 := lt_of_not_le h2
    rcases not_and_or.mp h1 with h | h
    · fin_cases k
      · exact le_trans (le_of_lt h2') (le_of_lt (lt_of_not_le h))
      · exact le_of_lt h2'
      · exact le_rfl
    · fin_cases k
      · exact le_of_lt (lt_of_not_le h)
      · exact le_of_lt h2'
      · exact le_rfl

/-- When the three values are not all equal, the first maximal index and the
first minimal index differ. -/
theorem idxOfMax3_ne_idxOfMin3 (f : Fin 3 → ℚ) (h : ¬(f 0 = f 1 ∧ f 1 = f 2)) :
    idxOfMax3 (f 0) (f 1) (f 2) ≠ idxOfMin3 (f 0) (f 1) (f 2) := by
  intro he
  apply h
  have hM := idxOfMax3_max f
  have hm : ∀ j, f (idxOfMax3 (f 0) (f 1) (f 2)) ≤ f j := by
    rw [he]; exact idxOfMin3_min f
  have key : ∀ i j, f i ≤ f j := fun i j => le_trans (hM i) (hm j)
  exact ⟨le_antisymm (key 0 1) (key 1 0), le_antisymm (key 1 2) (key 2 1)⟩

/-- The three scores of an all-equal dimensions triple are all zero. -/
theorem sumDiff_all_eq {d : Dims} (h1 : d.d0 = d.d1) (h2 : d.d1 = d.d2)
    (k : Fin 3) : sumDiff d k = 0 := by
  fin_cases k <;> simp [sumDiff, h1, h2, qabs]


/-! ### C5 -/

/-- C5: for every bounding-box dimension triple, the indices returned by the
major-, median- and minor-axis functions are pairwise distinct and together
form exactly the set of the three axis indices, and when all three
dimensions are equal the major axis is z (index 2). -/
theorem c5_axis_indices_partition (d : Dims) :
    get_major_axis d ≠ get_median_axis d ∧ get_major_axis d ≠ get_minor_axis d ∧
    get_median_axis d ≠ get_minor_axis d ∧
    (∀ k : Fin 3, k = get_major_axis d ∨ k = get_median_axis d ∨ k = get_minor_axis d) ∧
    ((d.d0 = d.d1 ∧ d.d1 = d.d2) → get_major_axis d = 2) := by
  have heq : (d.d0 = d.d1 ∧ d.d1 = d.d2) → get_major_axis d = 2 := by
    rintro ⟨h1, h2⟩
    unfold get_major_axis
    rw [if_pos]
    rw [sumDiff_all_eq h1 h2, sumDiff_all_eq h1 h2, sumDiff_all_eq h1 h2]
    exact ⟨rfl, rfl⟩
  by_cases htie : sumDiff d 0 = sumDiff d 1 ∧ sumDiff d 1 = sumDiff d 2
  · have hmaj : get_major_axis d = 2 := by unfold get_major_axis; rw [if_pos htie]
    have hMidx : idxOfMax3 (sumDiff d 0) (sumDiff d 1) (sumDiff d 2) = 0 := by
      unfold idxOfMax3
      rw [if_pos ⟨htie.1.ge, (htie.1.trans htie.2).ge⟩]
    have hmidx : idxOfMin3 (sumDiff d 0) (sumDiff d 1) (sumDiff d 2) = 0 := by
      unfold idxOfMin3
      rw [if_pos ⟨htie.1.le, (htie.1.trans htie.2).le⟩]
    have hmin : get_minor_axis d = 1 := by
      unfold get_minor_axis; rw [hMidx, hmidx]; decide
    have hmed : get_median_axis d = 0 := by
      unfold get_median_axis; rw [hmaj, hmin]; decide
    refine ⟨?_, ?_, ?_, ?_, heq⟩
    · rw [hmaj, hmed]; decide
    · rw [hmaj, hmin]; decide
    · rw [hmed, hmin]; decide
    · intro k; rw [hmaj, hmed, hmin]; revert k; decide
  · have hMm : idxOfMax3 (sumDiff d 0) (sumDiff d 1) (sumDiff d 2)
        ≠ idxOfMin3 (sumDiff d 0) (sumDiff d 1) (sumDiff d 2) :=
      idxOfMax3_ne_idxOfMin3 (sumDiff d) htie
    have hmaj : get_major_axis d
        = idxOfMax3 (sumDiff d 0) (sumDiff d 1) (sumDiff d 2) := by
      unfold get_major_axis; rw [if_neg htie]
    have hmed : get_median_axis d
        = idxOfMin3 (sumDiff d 0) (sumDiff d 1) (sumDiff d 2) := by
      unfold get_median_axis get_minor_axis
      rw [hmaj]
      exact remIdx_remIdx _ _ hMm
    have h1 : get_major_axis d ≠ get_median_axis d := by rw [hmaj, hmed]; exact hMm
    have h2 : get_major_axis d ≠ get_minor_axis d := by
      rw [hmaj]; unfold get_minor_axis
      exact fun h => (remIdx_ne _ _).1 h.symm
    have h3 : get_median_axis d ≠ get_minor_axis d := by
      rw [hmed]; unfold get_minor_axis
      exact fun h => (remIdx_ne _ _).2 h.symm
    exact ⟨h1, h2, h3,
      fun k => fin3_exhaust _ _ _ h1 h2 h3 k, heq⟩

/-! ### C4 -/

/-- C4 counterexample: at the dimensions triple (1, 2, 10) the score list is
(10, 9, 17), so get_minor_axis returns index 0 whose score 10 is strictly
above the score 9 of index 1 (hence not the argmin of the score as the
claim states), and get_median_axis does not return the index remaining
after removing the argmax and the argmin. -/
theorem c4_shape_axes_cex :
    sumDiff ⟨1, 2, 10⟩ 1 < sumDiff ⟨1, 2, 10⟩ (get_minor_axis ⟨1, 2, 10⟩) ∧
    get_median_axis ⟨1, 2, 10⟩ ≠
      remIdx (get_major_axis ⟨1, 2, 10⟩)
        (idxOfMin3 (sumDiff ⟨1, 2, 10⟩ 0) (sumDiff ⟨1, 2, 10⟩ 1)
          (sumDiff ⟨1, 2, 10⟩ 2)) := by
  have hs0 : sumDiff ⟨1, 2, 10⟩ 0 = 10 := by norm_num [sumDiff, qabs]
  have hs1 : sumDiff ⟨1, 2, 10⟩ 1 = 9 := by norm_num [sumDiff, qabs]
  have hs2 : sumDiff ⟨1, 2, 10⟩ 2 = 17 := by norm_num [sumDiff, qabs]
  have hM : idxOfMax3 (10 : ℚ) 9 17 = 2 := by norm_num [idxOfMax3]
  have hm : idxOfMin3 (10 : ℚ) 9 17 = 1 := by norm_num [idxOfMin3]
  have hmaj : get_major_axis ⟨1, 2, 10⟩ = 2 := by
    unfold get_major_axis
    rw [hs0, hs1, hs2, hM, if_neg]
    norm_num
  have hminor : get_minor_axis ⟨1, 2, 10⟩ = 0 := by
    unfold get_minor_axis
    rw [hs0, hs1, hs2, hM, hm]
    decide
  have hmed : get_median_axis ⟨1, 2, 10⟩ = 1 := by
    unfold get_median_axis
    rw [hmaj, hminor]
    decide
  refine ⟨?_, ?_⟩
  · rw [hminor, hs0, hs1]; norm_num
  · rw [hmed, hmaj, hs0, hs1, hs2, hm]
    decide

/-- C4 amended: the major-axis function attains the maximum of the
pairwise-absolute-difference score, the median-axis function attains its
minimum, the minor-axis function returns the remaining index (distinct from
both), and the cylinder, capsule and cone collision geometries have radius
half the (rounded) dimension at the median-axis index and height the
(rounded) dimension at the major-axis index, oriented along the major
axis. -/
theorem c4_shape_axes_amended (d : Dims) :
    (∀ k : Fin 3, sumDiff d k ≤ sumDiff d (get_major_axis d)) ∧
    (∀ k : Fin 3, sumDiff d (get_median_axis d) ≤ sumDiff d k) ∧
    (get_minor_axis d ≠ get_major_axis d ∧ get_minor_axis d ≠ get_median_axis d) ∧
    collision_geometry .CYLINDER d =
      .axialG (d.round3d.get (get_median_axis d.round3d) / 2)
        (d.round3d.get (get_major_axis d.round3d)) (get_major_axis d.round3d) ∧
    collision_geometry .CAPSULE d =
      .axialG (d.round3d.get (get_median_axis d.round3d) / 2)
        (d.round3d.get (get_major_axis d.round3d)) (get_major_axis d.round3d) ∧
    collision_geometry .CONE d =
      .axialG (d.round3d.get (get_median_axis d.round3d) / 2)
        (d.round3d.get (get_major_axis d.round3d)) (get_major_axis d.round3d) := by
  by_cases htie : sumDiff d 0 = sumDiff d 1 ∧ sumDiff d 1 = sumDiff d 2
  · have hmaj : get_major_axis d = 2 := by unfold get_major_axis; rw [if_pos htie]
    have hMidx : idxOfMax3 (sumDiff d 0) (sumDiff d 1) (sumDiff d 2) = 0 := by
      unfold idxOfMax3
      rw [if_pos ⟨htie.1.ge, (htie.1.trans htie.2).ge⟩]
    have hmidx : idxOfMin3 (sumDiff d 0) (sumDiff d 1) (sumDiff d 2) = 0 := by
      unfold idxOfMin3
      rw [if_pos ⟨htie.1.le, (htie.1.trans htie.2).le⟩]
    have hmin : get_minor_axis d = 1 := by
      unfold get_minor_axis; rw [hMidx, hmidx]; decide
    have hmed : get_median_axis d = 0 := by
      unfold get_median_axis; rw [hmaj, hmin]; decide
    refine ⟨?_, ?_, ?_, rfl, rfl, rfl⟩
    · intro k
      rw [hmaj]
      fin_cases k
      · exact (htie.1.trans htie.2).le
      · exact htie.2.le
      · exact le_rfl
    · intro k
      rw [hmed]
      fin_cases k
      · exact le_rfl
      · exact htie.1.le
      · exact (htie.1.trans htie.2).le
    · rw [hmin, hmaj, hmed]; exact ⟨by decide, by decide⟩
  · have hMm : idxOfMax3 (sumDiff d 0) (sumDiff d 1) (sumDiff d 2)
        ≠ idxOfMin3 (sumDiff d 0) (sumDiff d 1) (sumDiff d 2) :=
      idxOfMax3_ne_idxOfMin3 (sumDiff d) htie
    have hmaj : get_major_axis d
        = idxOfMax3 (sumDiff d 0) (sumDiff d 1) (sumDiff d 2) := by
      unfold get_major_axis; rw [if_neg htie]
    have hmed : get_median_axis d
        = idxOfMin3 (sumDiff d 0) (sumDiff d 1) (sumDiff d 2) := by
      unfold get_median_axis get_minor_axis
      rw [hmaj]
      exact remIdx_remIdx _ _ hMm
    refine ⟨?_, ?_, ?_, rfl, rfl, rfl⟩
    · intro k; rw [hmaj]; exact idxOfMax3_max (sumDiff d) k
    · intro k; rw [hmed]; exact idxOfMin3_min (sumDiff d) k
    · constructor
      · rw [hmaj]; unfold get_minor_axis
        exact (remIdx_ne _ _).1
      · rw [hmed]; unfold get_minor_axis
        exact (remIdx_ne _ _).2

/-! ### C2 -/

/-- C2 (evaluation at the failing input): with a detached joint followed by
an ordinary joint, the alignment pass adjusts nothing at all — the return
statement taken for the detached joint aborts the whole pass — although the
second joint has a child pivot and is not detached (and the intended
per-joint skip would have adjusted it); consequently the import trace
contains no adjustment event before the joint creations. -/
theorem c2_adjust_pass_abort_eval :
    adjust_body_pivots_and_axis
        [⟨"dj", true, true⟩, ⟨"j2", true, false⟩] = [] ∧
    (⟨"j2", true, false⟩ : JointDoc).hasChildPivot = true ∧
    (⟨"j2", true, false⟩ : JointDoc).detached = false ∧
    adjust_body_pivots_and_axis_intended
        [⟨"dj", true, true⟩, ⟨"j2", true, false⟩] = [⟨"j2", true, false⟩] ∧
    executeTrace true true ⟨[], [⟨"dj", true, true⟩, ⟨"j2", true, false⟩]⟩ =
      [LoadEvent.createJoint "dj", LoadEvent.createJoint "j2"] := by
  refine ⟨rfl, rfl, rfl, rfl, rfl⟩

/-! ### C7 -/

/-- qabs is invariant under negation. -/
theorem qabs_neg (q : ℚ) : qabs (-q) = qabs q := by
  unfold qabs
  split_ifs with h1 h2 h2 <;> linarith

/-- C7 counterexample: with residual axis (1,0,0), stored child axis
(1,0,0), canonical constraint axis (0,0,1) and residual angle 1, the
residual axis is far from parallel to the canonical axis (squared cross
product 1, far above the 0.01 threshold), yet no warning is emitted,
because the source checks parallelism against the stored child axis; the
correction is still applied. -/
theorem c7_ao_warning_cex :
    (1 / 10 : ℚ) ^ 2 <
      (V3Q.cross (round_vec ⟨1, 0, 0⟩) (⟨0, 0, 1⟩ : V3Q)).normSq ∧
    (ao_sanity_check ⟨1, 0, 0⟩ ⟨1, 0, 0⟩ ⟨0, 0, 1⟩ 1).warned = false ∧
    (ao_sanity_check ⟨1, 0, 0⟩ ⟨1, 0, 0⟩ ⟨0, 0, 1⟩ 1).applied = true := by
  have h0 : round3 0 = 0 := by norm_num [round3]
  have h1 : round3 1 = 1 := by norm_num [round3]
  have hrv : round_vec ⟨1, 0, 0⟩ = (⟨1, 0, 0⟩ : V3Q) := by
    simp [round_vec, h0, h1]
  refine ⟨?_, ?_, ?_⟩
  · rw [hrv]; norm_num [V3Q.cross, V3Q.normSq]
  · unfold ao_sanity_check
    rw [hrv]
    norm_num [V3Q.cross, V3Q.normSq, qabs]
  · unfold ao_sanity_check
    rw [hrv]
    norm_num [qabs]

/-- C7 amended: the warning is emitted exactly when the rounded residual
axis fails to be parallel to the stored child axis (squared cross product
above 0.01) and the residual angle exceeds 0.1 in magnitude; the correction
about the canonical constraint axis is applied exactly when the residual
angle exceeds 0.1 in magnitude, warning or not; the fragment always
completes and never aborts the import. -/
theorem c7_ao_check_amended (d_axis child_axis constraint_axis : V3Q) (d_angle : ℚ) :
    ((ao_sanity_check d_axis child_axis constraint_axis d_angle).warned = true ↔
      ((1 / 10 : ℚ) ^ 2 < (V3Q.cross (round_vec d_axis) child_axis).normSq ∧
        (1 / 10 : ℚ) < qabs d_angle)) ∧
    ((ao_sanity_check d_axis child_axis constraint_axis d_angle).applied = true ↔
      (1 / 10 : ℚ) < qabs d_angle) ∧
    (ao_sanity_check d_axis child_axis constraint_axis d_angle).appliedAxis
      = constraint_axis := by
  refine ⟨?_, ?_, rfl⟩
  · simp [ao_sanity_check]
  · unfold ao_sanity_check
    simp only [decide_eq_true_eq]
    split_ifs with h
    · rw [qabs_neg]
    · rfl

/-! ### C9 -/

/-- Membership characterisation of the collision group fold: a slot ends up
set exactly when it was set in the accumulator or listed (in range) in the
remaining groups. -/
theorem set_cg_fold_mem (groups : List ℤ) (p : (Fin 20 → Bool) × ℕ) (i : Fin 20) :
    (groups.foldl
      (fun st g =>
        if h : 0 ≤ g ∧ g < 20 then
          (Function.update st.1 ⟨g.toNat, by omega⟩ true, st.2)
        else (st.1, st.2 + 1)) p).1 i = true ↔
      (p.1 i = true ∨ (i : ℤ) ∈ groups) := by
  induction groups generalizing p with
  | nil => simp
  | cons g gs ih =>
    simp only [List.foldl_cons]
    by_cases h : 0 ≤ g ∧ g < 20
    · rw [dif_pos h, ih]
      have hiff : Function.update p.1 (⟨g.toNat, by omega⟩ : Fin 20) true i = true ↔
          (p.1 i = true ∨ (i : ℤ) = g) := by
        rw [Function.update_apply]
        rcases eq_or_ne i ⟨g.toNat, by omega⟩ with he | hne
        · rw [if_pos he]
          have hv : (i : ℕ) = g.toNat := by rw [he]
          have : (i : ℤ) = g := by omega
          simp [this]
        · rw [if_neg hne]
          have hv : (i : ℕ) ≠ g.toNat := fun hv => hne (Fin.ext hv)
          have : (i : ℤ) ≠ g := by omega
          simp [this]
      rw [hiff, List.mem_cons]
      tauto
    · rw [dif_neg h, ih, List.mem_cons]
      have : (i : ℤ) ≠ g := by
        have hi : (i : ℕ) < 20 := i.isLt
        omega
      simp [this]

/-- The warning counter of the collision group fold counts exactly the
out-of-range indices. -/
theorem set_cg_fold_count (groups : List ℤ) (p : (Fin 20 → Bool) × ℕ) :
    (groups.foldl
      (fun st g =>
        if h : 0 ≤ g ∧ g < 20 then
          (Function.update st.1 ⟨g.toNat, by omega⟩ true, st.2)
        else (st.1, st.2 + 1)) p).2 =
      p.2 + (groups.filter (fun g => !(decide (0 ≤ g ∧ g < 20)))).length := by
  induction groups generalizing p with
  | nil => simp
  | cons g gs ih =>
    simp only [List.foldl_cons, List.filter_cons]
    by_cases h : 0 ≤ g ∧ g < 20
    · have hd : (!(decide (0 ≤ g ∧ g < 20))) = false := by simp [h]
      rw [hd, if_neg Bool.false_ne_true, dif_pos h, ih]
    · have hd : (!(decide (0 ≤ g ∧ g < 20))) = true := by simp [h]
      rw [hd, if_pos rfl, dif_neg h, ih]
      simp only [List.length_cons]
      omega

/-- The flags component of the collision group fold ignores the warning
counter of the accumulator. -/
theorem set_cg_fold_fst_ignores_snd (groups : List ℤ) (f : Fin 20 → Bool) (a b : ℕ) :
    (groups.foldl
      (fun st g =>
        if h : 0 ≤ g ∧ g < 20 then
          (Function.update st.1 ⟨g.toNat, by omega⟩ true, st.2)
        else (st.1, st.2 + 1)) (f, a)).1 =
    (groups.foldl
      (fun st g =>
        if h : 0 ≤ g ∧ g < 20 then
          (Function.update st.1 ⟨g.toNat, by omega⟩ true, st.2)
        else (st.1, st.2 + 1)) (f, b)).1 := by
  induction groups generalizing f a b with
  | nil => rfl
  | cons g gs ih =>
    simp only [List.foldl_cons]
    by_cases h : 0 ≤ g ∧ g < 20
    · rw [dif_pos h, dif_pos h]
      exact ih _ _ _
    · rw [dif_neg h, dif_neg h]
      exact ih _ _ _

/-- Dropping out-of-range indices does not change the resulting flags. -/
theorem set_cg_fold_filter (groups : List ℤ) (p : (Fin 20 → Bool) × ℕ) :
    (groups.foldl
      (fun st g =>
        if h : 0 ≤ g ∧ g < 20 then
          (Function.update st.1 ⟨g.toNat, by omega⟩ true, st.2)
        else (st.1, st.2 + 1)) p).1 =
    ((groups.filter (fun g => decide (0 ≤ g ∧ g < 20))).foldl
      (fun st g =>
        if h : 0 ≤ g ∧ g < 20 then
          (Function.update st.1 ⟨g.toNat, by omega⟩ true, st.2)
        else (st.1, st.2 + 1)) p).1 := by
  induction groups generalizing p with
  | nil => simp
  | cons g gs ih =>
    simp only [List.filter_cons]
    by_cases h : 0 ≤ g ∧ g < 20
    · have hd : decide (0 ≤ g ∧ g < 20) = true := by simp [h]
      rw [hd, if_pos rfl]
      simp only [List.foldl_cons]
      rw [dif_pos h]
      exact ih _
    · have hd : decide (0 ≤ g ∧ g < 20) = false := by simp [h]
      rw [hd, if_neg Bool.false_ne_true]
      simp only [List.foldl_cons]
      rw [dif_neg h]
      have hsnd := set_cg_fold_fst_ignores_snd gs p.1 (p.2 + 1) p.2
      rw [hsnd]
      exact ih _

/-- C9: importing a body collision-groups list, in legacy and in native
mode alike, sets exactly the listed indices inside [0, 20) as membership
flags (starting from the default state where only group 0 is set, which the
loop first clears); every index outside [0, 20) adds a warning, changes no
flag (the result equals the run on the in-range sublist), and processing
never aborts: the loop always completes with a total result. -/
theorem c9_collision_group_import (groups : List ℤ) (flags : Fin 20 → Bool)
    (hdef : ∀ i : Fin 20, flags i = true ↔ i = 0) :
    (∀ i : Fin 20,
      (load_blender_collision_groups groups flags).1 i = true ↔ (i : ℤ) ∈ groups) ∧
    (load_blender_collision_groups groups flags).1 =
      (load_blender_collision_groups
        (groups.filter (fun g => decide (0 ≤ g ∧ g < 20))) flags).1 ∧
    (load_blender_collision_groups groups flags).2 =
      (groups.filter (fun g => !(decide (0 ≤ g ∧ g < 20)))).length ∧
    (∀ i : Fin 20,
      (load_ambf_collision_groups groups flags).1 i = true ↔ (i : ℤ) ∈ groups) ∧
    (load_ambf_collision_groups groups flags).1 =
      (load_ambf_collision_groups
        (groups.filter (fun g => decide (0 ≤ g ∧ g < 20))) flags).1 ∧
    (load_ambf_collision_groups groups flags).2 =
      (groups.filter (fun g => !(decide (0 ≤ g ∧ g < 20)))).length := by
  have hcleared : ∀ i : Fin 20, Function.update flags 0 false i = false := by
    intro i
    rcases eq_or_ne i 0 with he | hne
    · subst he; simp
    · rw [Function.update_noteq hne]
      have := hdef i
      rcases hb : flags i with _ | _
      · rfl
      · exact absurd (this.mp hb) hne
  have hmem : ∀ i : Fin 20,
      (set_collision_groups groups flags).1 i = true ↔ (i : ℤ) ∈ groups := by
    intro i
    unfold set_collision_groups
    rw [set_cg_fold_mem]
    simp [hcleared i]
  have hfilter : (set_collision_groups groups flags).1 =
      (set_collision_groups (groups.filter (fun g => decide (0 ≤ g ∧ g < 20))) flags).1 := by
    unfold set_collision_groups
    exact set_cg_fold_filter groups _
  have hcount : (set_collision_groups groups flags).2 =
      (groups.filter (fun g => !(decide (0 ≤ g ∧ g < 20)))).length := by
    unfold set_collision_groups
    rw [set_cg_fold_count]
    simp
  exact ⟨hmem, hfilter, hcount, hmem, hfilter, hcount⟩

/-- C9 witness at a concrete input: groups [3, 25, -1, 0] with the default
flag state where only group 0 is set. -/
theorem c9_collision_group_import_witness :
    (∀ i : Fin 20, (fun j : Fin 20 => decide (j = 0)) i = true ↔ i = 0) ∧
    ((∀ i : Fin 20,
      (load_blender_collision_groups [3, 25, -1, 0] (fun j : Fin 20 => decide (j = 0))).1 i
        = true ↔ (i : ℤ) ∈ [3, 25, -1, 0]) ∧
    (load_blender_collision_groups [3, 25, -1, 0] (fun j : Fin 20 => decide (j = 0))).1 =
      (load_blender_collision_groups
        ([3, 25, -1, 0].filter (fun g => decide (0 ≤ g ∧ g < 20)))
        (fun j : Fin 20 => decide (j = 0))).1 ∧
    (load_blender_collision_groups [3, 25, -1, 0] (fun j : Fin 20 => decide (j = 0))).2 =
      ([3, 25, -1, 0].filter (fun g => !(decide (0 ≤ g ∧ g < 20)))).length ∧
    (∀ i : Fin 20,
      (load_ambf_collision_groups [3, 25, -1, 0] (fun j : Fin 20 => decide (j = 0))).1 i
        = true ↔ (i : ℤ) ∈ [3, 25, -1, 0]) ∧
    (load_ambf_collision_groups [3, 25, -1, 0] (fun j : Fin 20 => decide (j = 0))).1 =
      (load_ambf_collision_groups
        ([3, 25, -1, 0].filter (fun g => decide (0 ≤ g ∧ g < 20)))
        (fun j : Fin 20 => decide (j = 0))).1 ∧
    (load_ambf_collision_groups [3, 25, -1, 0] (fun j : Fin 20 => decide (j = 0))).2 =
      ([3, 25, -1, 0].filter (fun g => !(decide (0 ≤ g ∧ g < 20)))).length) :=
  ⟨by decide, c9_collision_group_import [3, 25, -1, 0] _ (by decide)⟩

/-! ### C10 -/

/-- C10: exporting a joint whose constraint is GENERIC with no active limit
flag reaches the error where the joint type field is read without ever
having been assigned (assign_joint_params is none exactly then), and for a
GENERIC_SPRING constraint the joint-axis index is left undefined before use
exactly when no limit flag is active (get_joint_axis is none exactly then);
so the export of such joints is not total, and the error branch is
reachable exactly when no limit flag of the constraint is active. -/
theorem c10_generic_export_not_total (c : BConstraint) :
    (c.ctype = .GENERIC → (assign_joint_params c = none ↔ noLimitFlagActive c)) ∧
    (c.ctype = .GENERIC_SPRING → (get_joint_axis c = none ↔ noLimitFlagActive c)) := by
  constructor
  · intro h
    simp only [assign_joint_params, h]
    cases hx1 : c.use_limit_lin_x <;> cases hx2 : c.use_limit_lin_y <;>
      cases hx3 : c.use_limit_lin_z <;> cases hx4 : c.use_limit_ang_x <;>
      cases hx5 : c.use_limit_ang_y <;> cases hx6 : c.use_limit_ang_z <;>
      simp_all [noLimitFlagActive]
  · intro h
    simp only [get_joint_axis, h]
    cases hx1 : c.use_limit_lin_x <;> cases hx2 : c.use_limit_lin_y <;>
      cases hx3 : c.use_limit_lin_z <;> cases hx4 : c.use_limit_ang_x <;>
      cases hx5 : c.use_limit_ang_y <;> cases hx6 : c.use_limit_ang_z <;>
      simp_all [noLimitFlagActive]

/-- C10 witness: a GENERIC constraint with no flag set indeed makes
assign_joint_params fail, and the same for the GENERIC_SPRING axis
lookup. -/
theorem c10_generic_export_not_total_witness :
    ((trivialConstraint .GENERIC).ctype = .GENERIC) ∧
    (assign_joint_params (trivialConstraint .GENERIC) = none ↔
      noLimitFlagActive (trivialConstraint .GENERIC)) ∧
    ((trivialConstraint .GENERIC_SPRING).ctype = .GENERIC_SPRING) ∧
    (get_joint_axis (trivialConstraint .GENERIC_SPRING) = none ↔
      noLimitFlagActive (trivialConstraint .GENERIC_SPRING)) :=
  ⟨rfl, (c10_generic_export_not_total (trivialConstraint .GENERIC)).1 rfl,
   rfl, (c10_generic_export_not_total (trivialConstraint .GENERIC_SPRING)).2 rfl⟩

/-! ### C8 -/

/-- C8: in every joint record that assign_joint_params completes, the joint
limits entry is removed exactly for the fixed and p2p types, kept but
emptied of its bounds exactly for the continuous type, and for every other
type it carries the lower and upper limit values selected by the active
constraint branch, rounded to three decimals. -/
theorem c8_joint_limits_by_type (c : BConstraint) (p : JointParams)
    (hp : assign_joint_params c = some p) :
    ((p.jtype = "fixed" ∨ p.jtype = "p2p") ↔ p.limits = .removed) ∧
    (p.jtype = "continuous" ↔ p.limits = .emptied) ∧
    (∀ lo hi : ℚ, activeLimitPair c = some (lo, hi) →
      p.limits = .bounds (round3 lo) (round3 hi)) ∧
    (p.jtype ≠ "fixed" → p.jtype ≠ "p2p" → p.jtype ≠ "continuous" →
      ∃ lo hi : ℚ, activeLimitPair c = some (lo, hi)) := by
  cases hc : c.ctype
  case FIXED =>
    simp only [assign_joint_params, hc, Option.some.injEq] at hp
    subst hp
    simp only [activeLimitPair, hc]
    exact ⟨by simp [finalize_limits], by simp [finalize_limits], by simp,
      by intro h _ _; exact absurd rfl h⟩
  case HINGE =>
    simp only [assign_joint_params, hc] at hp
    simp only [activeLimitPair, hc]
    split_ifs at hp ⊢ with hz
    · rw [Option.some.injEq] at hp
      subst hp
      refine ⟨by simp [finalize_limits], by simp [finalize_limits], ?_, ?_⟩
      · rintro lo hi hlh
        rw [Option.some.injEq, Prod.mk.injEq] at hlh
        obtain ⟨ha, hb⟩ := hlh
        subst ha
        subst hb
        simp [finalize_limits]
      · intro _ _ _
        exact ⟨_, _, rfl⟩
    · rw [Option.some.injEq] at hp
      subst hp
      refine ⟨by simp [finalize_limits], by simp [finalize_limits], ?_, ?_⟩
      · rintro lo hi hlh
        exact absurd hlh (by simp)
      · intro _ _ h
        exact absurd rfl h
  case SLIDER =>
    simp only [assign_joint_params, hc, Option.some.injEq] at hp
    subst hp
    simp only [activeLimitPair, hc]
    refine ⟨by simp [finalize_limits], by simp [finalize_limits], ?_, ?_⟩
    · rintro lo hi hlh
      rw [Option.some.injEq, Prod.mk.injEq] at hlh
      obtain ⟨ha, hb⟩ := hlh
      subst ha
      subst hb
      simp [finalize_limits]
    · intro _ _ _
      exact ⟨_, _, rfl⟩
  case POINT =>
    simp only [assign_joint_params, hc, Option.some.injEq] at hp
    subst hp
    simp only [activeLimitPair, hc]
    exact ⟨by simp [finalize_limits], by simp [finalize_limits], by simp,
      by intro _ h _; exact absurd rfl h⟩
  case GENERIC =>
    simp only [assign_joint_params, hc] at hp
    simp only [activeLimitPair, hc]
    split_ifs at hp ⊢ <;>
      first
        | (rw [Option.some.injEq] at hp
           subst hp
           exact ⟨by simp [finalize_limits], by simp [finalize_limits],
             by (rintro lo hi hlh
                 rw [Option.some.injEq, Prod.mk.injEq] at hlh
                 obtain ⟨ha, hb⟩ := hlh
                 subst ha
                 subst hb
                 simp [finalize_limits]),
             by intro _ _ _; exact ⟨_, _, rfl⟩⟩)
  case GENERIC_SPRING =>
    simp only [assign_joint_params, hc] at hp
    simp only [activeLimitPair, hc]
    split_ifs at hp ⊢ <;>
      first
        | (rw [Option.some.injEq] at hp
           subst hp
           exact ⟨by simp [finalize_limits], by simp [finalize_limits],
             by (rintro lo hi hlh
                 rw [Option.some.injEq, Prod.mk.injEq] at hlh
                 obtain ⟨ha, hb⟩ := hlh
                 subst ha
                 subst hb
                 simp [finalize_limits]),
             by intro _ _ _; exact ⟨_, _, rfl⟩⟩)

/-- C8 witness: the claim instantiated at a concrete limited hinge. -/
theorem c8_joint_limits_by_type_witness :
    ((hingeP.jtype = "fixed" ∨ hingeP.jtype = "p2p") ↔ hingeP.limits = .removed) ∧
    (hingeP.jtype = "continuous" ↔ hingeP.limits = .emptied) ∧
    (∀ lo hi : ℚ, activeLimitPair hingeZc = some (lo, hi) →
      hingeP.limits = .bounds (round3 lo) (round3 hi)) ∧
    (hingeP.jtype ≠ "fixed" → hingeP.jtype ≠ "p2p" → hingeP.jtype ≠ "continuous" →
      ∃ lo hi : ℚ, activeLimitPair hingeZc = some (lo, hi)) :=
  c8_joint_limits_by_type hingeZc hingeP rfl

/-! ### C6: infrastructure lemmas -/

/-- Folding a state transformer over a list preserves any property each
step preserves. -/
theorem foldl_preserve {σ β : Type} (g : σ → β → σ) (P : σ → Prop)
    (h : ∀ st c, P st → P (g st c)) : ∀ (l : List β) (st : σ), P st → P (l.foldl g st) := by
  intro l
  induction l with
  | nil => intro st hst; exact hst
  | cons c cs ih => intro st hst; exact ih _ (h st c hst)

/-- The downward pass leaves a state with its node already visited
untouched. -/
theorem dts_visited {n : ℕ} (S : SceneGraph n) (f : ℕ) (b : Fin n) (st : TState n)
    (h : st.2 b = true) : downward_tree_pass S (f + 1) b st = st := by
  unfold downward_tree_pass
  rw [if_pos h]

/-- Visited flags only ever get set by the downward pass. -/
theorem dts_mono_flags {n : ℕ} (S : SceneGraph n) :
    ∀ (f : ℕ) (b : Fin n) (st : TState n) (v : Fin n),
      st.2 v = true → (downward_tree_pass S f b st).2 v = true := by
  intro f
  induction f with
  | zero => intro b st v h; exact h
  | succ f ih =>
    intro b st v h
    unfold downward_tree_pass
    split_ifs with hvis
    · exact h
    · refine foldl_preserve _ (fun x => x.2 v = true) (fun x c hx => ih c x v hx)
        (S.children b) _ ?_
      rcases eq_or_ne v b with he | hne
      · subst he; simp
      · simpa [Function.update_noteq hne] using h

/-- The downward pass only appends to the accumulated list. -/
theorem dts_extends {n : ℕ} (S : SceneGraph n) :
    ∀ (f : ℕ) (b : Fin n) (st : TState n), ∃ t, (downward_tree_pass S f b st).1 = st.1 ++ t := by
  intro f
  induction f with
  | zero => intro b st; exact ⟨[], by simp [downward_tree_pass]⟩
  | succ f ih =>
    intro b st
    unfold downward_tree_pass
    split_ifs with hvis
    · exact ⟨[], by simp⟩
    · have : ∀ (l : List (Fin n)) (x : TState n), (∃ t, x.1 = st.1 ++ t) →
          ∃ t, (l.foldl (fun acc c => downward_tree_pass S f c acc) x).1 = st.1 ++ t := by
        intro l
        refine foldl_preserve _ (fun x : TState n => ∃ t, x.1 = st.1 ++ t) ?_ l
        intro x c hx
        obtain ⟨t, ht⟩ := hx
        obtain ⟨t2, ht2⟩ := ih c x
        exact ⟨t ++ t2, by rw [ht2, ht, List.append_assoc]⟩
      exact this _ _ ⟨[b], rfl⟩

/-- A run of the downward pass with positive fuel leaves its node
visited. -/
theorem dts_marks {n : ℕ} (S : SceneGraph n) (f : ℕ) (b : Fin n) (st : TState n) :
    (downward_tree_pass S (f + 1) b st).2 b = true := by
  unfold downward_tree_pass
  split_ifs with hvis
  · exact hvis
  · refine foldl_preserve _ (fun x => x.2 b = true)
      (fun x c hx => dts_mono_flags S f c x b hx) (S.children b) _ ?_
    simp

/-- Index of a freshly appended element: the length of the old list. -/
theorem indexOf_append_self_of_not_mem {α : Type} [DecidableEq α] {l : List α} {b : α}
    (h : b ∉ l) : List.indexOf b (l ++ [b]) = l.length := by
  induction l with
  | nil => simp
  | cons x xs ih =>
    have hbx : x ≠ b := by
      rintro rfl
      exact h (List.mem_cons_self _ _)
    rw [List.cons_append, List.indexOf_cons_ne _ hbx,
      ih (fun hm => h (List.mem_cons_of_mem _ hm))]
    rfl

/-- The downward fuel measure is at most the number of nodes. -/
theorem measDown_le {n : ℕ} (rank : Fin n → ℕ) (b : Fin n) : measDown rank b ≤ n := by
  calc measDown rank b ≤ Finset.univ.card := Finset.card_filter_le _ _
  _ = n := Finset.card_univ.trans (Fintype.card_fin n)

/-- The downward fuel measure strictly decreases from a node to any node of
strictly larger rank. -/
theorem measDown_lt {n : ℕ} (rank : Fin n → ℕ) {b c : Fin n} (h : rank b < rank c) :
    measDown rank c < measDown rank b := by
  apply Finset.card_lt_card
  rw [Finset.ssubset_iff_of_subset]
  · exact ⟨b, Finset.mem_filter.mpr ⟨Finset.mem_univ b, le_rfl⟩,
      fun hb => absurd (Finset.mem_filter.mp hb).2 (by omega)⟩
  · intro x hx
    rw [Finset.mem_filter] at hx ⊢
    exact ⟨hx.1, by omega⟩

/-- The upward fuel measure strictly decreases from a node to any node of
strictly smaller rank. -/
theorem measUp_lt {n : ℕ} (rank : Fin n → ℕ) {b p : Fin n} (h : rank p < rank b) :
    measUp rank p < measUp rank b := by
  apply Finset.card_lt_card
  rw [Finset.ssubset_iff_of_subset]
  · exact ⟨b, Finset.mem_filter.mpr ⟨Finset.mem_univ b, le_rfl⟩,
      fun hb => absurd (Finset.mem_filter.mp hb).2 (by omega)⟩
  · intro x hx
    rw [Finset.mem_filter] at hx ⊢
    exact ⟨hx.1, by omega⟩

/-- The upward fuel measure is at most the number of nodes. -/
theorem measUp_le {n : ℕ} (rank : Fin n → ℕ) (b : Fin n) : measUp rank b ≤ n := by
  calc measUp rank b ≤ Finset.univ.card := Finset.card_filter_le _ _
  _ = n := Finset.card_univ.trans (Fintype.card_fin n)

/-- With fuel at least the upward measure, the fuelled ascent reaches a
root. -/
theorem grandParentAux_root {n : ℕ} (S : SceneGraph n) (rank : Fin n → ℕ)
    (hR : S.RankedBy rank) :
    ∀ (f : ℕ) (b : Fin n), measUp rank b ≤ f → S.parent (grandParentAux S f b) = none := by
  intro f
  induction f with
  | zero =>
    intro b hf
    exfalso
    have : b ∈ Finset.univ.filter (fun x => rank x ≤ rank b) :=
      Finset.mem_filter.mpr ⟨Finset.mem_univ b, le_rfl⟩
    have : 0 < measUp rank b := Finset.card_pos.mpr ⟨b, this⟩
    omega
  | succ f ih =>
    intro b hf
    unfold grandParentAux
    rcases hp : S.parent b with _ | p
    · exact hp
    · have hlt : measUp rank p < measUp rank b := measUp_lt rank (hR b p hp)
      exact ih p (by omega)

/-- The root returned by get_grand_parent has no parent. -/
theorem get_grand_parent_root {n : ℕ} (S : SceneGraph n) (rank : Fin n → ℕ)
    (hR : S.RankedBy rank) (b : Fin n) : S.parent (get_grand_parent S b) = none :=
  grandParentAux_root S rank hR n b (measUp_le rank b)

/-- The fuelled ascent follows parent links: its result is connected to its
argument by a chain of parent steps. -/
theorem grandParentAux_chain {n : ℕ} (S : SceneGraph n) :
    ∀ (f : ℕ) (b : Fin n),
      Relation.ReflTransGen (fun x y => S.parent x = some y) b (grandParentAux S f b) := by
  intro f
  induction f with
  | zero => intro b; exact Relation.ReflTransGen.refl
  | succ f ih =>
    intro b
    unfold grandParentAux
    rcases hp : S.parent b with _ | p
    · exact Relation.ReflTransGen.refl
    · exact Relation.ReflTransGen.head hp (ih p)

/-- In a closed state, visitedness propagates from any ancestor down the
parent chain. -/
theorem closed_descend {n : ℕ} (S : SceneGraph n) (hC : S.Coherent) (st : TState n)
    (hcl : ClosedExc S (fun _ => False) st) (o a : Fin n)
    (hchain : Relation.ReflTransGen (fun x y => S.parent x = some y) o a)
    (ha : st.2 a = true) : st.2 o = true := by
  induction hchain using Relation.ReflTransGen.head_induction_on with
  | refl => exact ha
  | head hstep _ ih =>
    rename_i x y _
    have hy : st.2 y = true := ih
    exact hcl y hy (fun hf => hf) x ((hC.1 x y).mpr hstep)

/-- Central correctness lemma for the fuelled downward pass: with enough
fuel (the rank-based measure), starting from a consistent state, the pass
preserves the state invariants, only appends, visits its node, and closes
the visited set under children outside the exception set. -/
theorem dts_correct {n : ℕ} (S : SceneGraph n) (rank : Fin n → ℕ)
    (hC : S.Coherent) (hR : S.RankedBy rank) :
    ∀ (f : ℕ) (b : Fin n) (E : Fin n → Prop) (st : TState n),
      TInv st → ClosedExc S E st → Orderly S st →
      measDown rank b ≤ f →
      (∀ q, S.parent b = some q → q ∈ st.1) →
      TInv (downward_tree_pass S f b st) ∧
      ClosedExc S E (downward_tree_pass S f b st) ∧
      Orderly S (downward_tree_pass S f b st) ∧
      (∀ v, st.2 v = true → (downward_tree_pass S f b st).2 v = true) ∧
      (∃ t, (downward_tree_pass S f b st).1 = st.1 ++ t) ∧
      (downward_tree_pass S f b st).2 b = true := by
  intro f
  induction f with
  | zero =>
    intro b E st _ _ _ hf _
    exfalso
    have hmem : b ∈ Finset.univ.filter (fun x => rank b ≤ rank x) :=
      Finset.mem_filter.mpr ⟨Finset.mem_univ b, le_rfl⟩
    have : 0 < measDown rank b := Finset.card_pos.mpr ⟨b, hmem⟩
    omega
  | succ f ihf =>
    intro b E st hInv hcl hOrd hf hpre
    unfold downward_tree_pass
    split_ifs with hvis
    · exact ⟨hInv, hcl, hOrd, fun v hv => hv, ⟨[], by simp⟩, hvis⟩
    · set st' : TState n := (st.1 ++ [b], Function.update st.2 b true) with hst'
      have hbnot : b ∉ st.1 := fun hm => hvis ((hInv.2 b).mpr hm)
      have hInv' : TInv st' := by
        constructor
        · rw [hst']
          refine List.nodup_append.mpr ⟨hInv.1, List.nodup_singleton b, ?_⟩
          intro x hx hxb
          rw [List.mem_singleton] at hxb
          subst hxb
          exact hbnot hx
        · intro v
          rcases eq_or_ne v b with he | hne
          · subst he
            simp [hst']
          · rw [hst']
            simp only [Function.update_noteq hne, List.mem_append, List.mem_singleton]
            rw [hInv.2 v]
            simp [hne]
      have hmono' : ∀ v, st.2 v = true → st'.2 v = true := by
        intro v hv
        rcases eq_or_ne v b with he | hne
        · subst he; simp [hst']
        · rw [hst']
          simpa [Function.update_noteq hne] using hv
      have hcl' : ClosedExc S (fun v => v = b ∨ E v) st' := by
        intro v hv hnv c hc
        have hne : v ≠ b := fun he => hnv (Or.inl he)
        have hnE : ¬ E v := fun hE => hnv (Or.inr hE)
        have hvst : st.2 v = true := by
          rw [hst'] at hv
          simpa [Function.update_noteq hne] using hv
        exact hmono' c (hcl v hvst hnE c hc)
      have hOrd' : Orderly S st' := by
        intro v hv q hq
        rw [hst'] at hv
        rcases List.mem_append.mp hv with hvl | hvb
        · obtain ⟨hqm, hlt⟩ := hOrd v hvl q hq
          refine ⟨List.mem_append_left _ hqm, ?_⟩
          rw [hst']
          simp only []
          rw [List.indexOf_append_of_mem hqm, List.indexOf_append_of_mem hvl]
          exact hlt
        · rw [List.mem_singleton] at hvb
          subst hvb
          have hqm := hpre q hq
          refine ⟨List.mem_append_left _ hqm, ?_⟩
          rw [hst']
          simp only []
          rw [List.indexOf_append_of_mem hqm, indexOf_append_self_of_not_mem hbnot]
          exact List.indexOf_lt_length.mpr hqm
      have hbmem' : b ∈ st'.1 := by
        rw [hst']
        exact List.mem_append_right _ (List.mem_singleton_self b)
      have hfold : ∀ (cs : List (Fin n)) (acc : TState n),
          (∀ c ∈ cs, c ∈ S.children b) →
          TInv acc → ClosedExc S (fun v => v = b ∨ E v) acc → Orderly S acc →
          (∃ t, acc.1 = st'.1 ++ t) →
          (∀ v, st'.2 v = true → acc.2 v = true) →
          TInv (cs.foldl (fun a c => downward_tree_pass S f c a) acc) ∧
          ClosedExc S (fun v => v = b ∨ E v)
            (cs.foldl (fun a c => downward_tree_pass S f c a) acc) ∧
          Orderly S (cs.foldl (fun a c => downward_tree_pass S f c a) acc) ∧
          (∃ t, (cs.foldl (fun a c => downward_tree_pass S f c a) acc).1 = st'.1 ++ t) ∧
          (∀ v, st'.2 v = true →
            (cs.foldl (fun a c => downward_tree_pass S f c a) acc).2 v = true) ∧
          (∀ c ∈ cs, (cs.foldl (fun a c => downward_tree_pass S f c a) acc).2 c = true) := by
        intro cs
        induction cs with
        | nil =>
          intro acc _ h1 h2 h3 h4 h5
          exact ⟨h1, h2, h3, h4, h5, by simp⟩
        | cons c cs ih =>
          intro acc hcs h1 h2 h3 h4 h5
          have hcb : c ∈ S.children b := hcs c (List.mem_cons_self _ _)
          have hcp : S.parent c = some b := (hC.1 c b).mp hcb
          have hrank : rank b < rank c := hR c b hcp
          have hfc : measDown rank c ≤ f := by
            have := measDown_lt rank hrank
            omega
          have hprec : ∀ q, S.parent c = some q → q ∈ acc.1 := by
            intro q hq
            rw [hcp] at hq
            injection hq with hq
            subst hq
            obtain ⟨t, ht⟩ := h4
            rw [ht]
            exact List.mem_append_left _ hbmem'
          obtain ⟨k1, k2, k3, k4, k5, k6⟩ :=
            ihf c (fun v => v = b ∨ E v) acc h1 h2 h3 hfc hprec
          simp only [List.foldl_cons]
          have hext : ∃ t, (downward_tree_pass S f c acc).1 = st'.1 ++ t := by
            obtain ⟨t1, ht1⟩ := h4
            obtain ⟨t2, ht2⟩ := k5
            exact ⟨t1 ++ t2, by rw [ht2, ht1, List.append_assoc]⟩
          have hmon : ∀ v, st'.2 v = true → (downward_tree_pass S f c acc).2 v = true :=
            fun v hv => k4 v (h5 v hv)
          obtain ⟨m1, m2, m3, m4, m5, m6⟩ :=
            ih _ (fun x hx => hcs x (List.mem_cons_of_mem _ hx)) k1 k2 k3 hext hmon
          refine ⟨m1, m2, m3, m4, m5, ?_⟩
          intro x hx
          rcases List.mem_cons.mp hx with he | hxs
          · subst he
            refine foldl_preserve _ (fun a : TState n => a.2 x = true)
              (fun a y ha => dts_mono_flags S f y a x ha) cs _ k6
          · exact m6 x hxs
      obtain ⟨r1, r2, r3, r4, r5, r6⟩ :=
        hfold (S.children b) st' (fun c hc => hc) hInv' hcl' hOrd' ⟨[], by simp⟩
          (fun v hv => hv)
      refine ⟨r1, ?_, r3, ?_, ?_, ?_⟩
      · intro v hv hnv c hc
        rcases eq_or_ne v b with he | hne
        · subst he
          exact r6 c hc
        · exact r2 v hv (by simp [hne, hnv]) c hc
      · intro v hv
        exact r5 v (hmono' v hv)
      · obtain ⟨t, ht⟩ := r4
        refine ⟨[b] ++ t, ?_⟩
        rw [ht, hst']
        simp
      · exact r5 b (by simp [hst'])

/-- Correctness of the outer traversal loop: starting from a consistent
state, folding the downward pass from the grand parent of each listed
object preserves the invariants and leaves the grand parent of every
listed object visited. -/
theorem populate_fold_correct {n : ℕ} (S : SceneGraph n) (rank : Fin n → ℕ)
    (hC : S.Coherent) (hR : S.RankedBy rank) :
    ∀ (objs : List (Fin n)) (st : TState n),
      TInv st → ClosedExc S (fun _ => False) st → Orderly S st →
      TInv (objs.foldl (fun a o => downward_tree_pass S (n + 1) (get_grand_parent S o) a) st) ∧
      ClosedExc S (fun _ => False)
        (objs.foldl (fun a o => downward_tree_pass S (n + 1) (get_grand_parent S o) a) st) ∧
      Orderly S
        (objs.foldl (fun a o => downward_tree_pass S (n + 1) (get_grand_parent S o) a) st) ∧
      (∀ v, st.2 v = true →
        (objs.foldl (fun a o => downward_tree_pass S (n + 1) (get_grand_parent S o) a) st).2 v
          = true) ∧
      (∀ o ∈ objs,
        (objs.foldl (fun a o => downward_tree_pass S (n + 1) (get_grand_parent S o) a) st).2
          (get_grand_parent S o) = true) := by
  intro objs
  induction objs with
  | nil =>
    intro st h1 h2 h3
    exact ⟨h1, h2, h3, fun v hv => hv, by simp⟩
  | cons o os ih =>
    intro st h1 h2 h3
    have hmeas : measDown rank (get_grand_parent S o) ≤ n + 1 := by
      have := measDown_le rank (get_grand_parent S o)
      omega
    have hpre : ∀ q, S.parent (get_grand_parent S o) = some q → q ∈ st.1 := by
      intro q hq
      rw [get_grand_parent_root S rank hR o] at hq
      cases hq
    obtain ⟨k1, k2, k3, k4, k5, k6⟩ :=
      dts_correct S rank hC hR (n + 1) (get_grand_parent S o) (fun _ => False) st
        h1 h2 h3 hmeas hpre
    simp only [List.foldl_cons]
    obtain ⟨m1, m2, m3, m4, m5⟩ := ih _ k1 k2 k3
    refine ⟨m1, m2, m3, fun v hv => m4 v (k4 v hv), ?_⟩
    intro x hx
    rcases List.mem_cons.mp hx with he | hxs
    · subst he
      exact m4 _ k6
    · exact m5 x hxs

/-- Folding the downward pass over a root list ignores roots that are
already visited: filtering them out changes nothing. -/
theorem fold_roots_skip_visited {n : ℕ} (S : SceneGraph n) :
    ∀ (l : List (Fin n)) (r : Fin n) (st : TState n), st.2 r = true →
      l.foldl (fun a x => downward_tree_pass S (n + 1) x a) st =
      (l.filter (fun y => y ≠ r)).foldl (fun a x => downward_tree_pass S (n + 1) x a) st := by
  intro l
  induction l with
  | nil => intro r st _; rfl
  | cons x xs ih =>
    intro r st hr
    rcases eq_or_ne x r with he | hne
    · subst he
      have hd : (decide (x ≠ x)) = false := by simp
      rw [List.filter_cons, hd, if_neg Bool.false_ne_true]
      simp only [List.foldl_cons]
      rw [dts_visited S n x st hr]
      exact ih x st hr
    · have hd : (decide (x ≠ r)) = true := by simp [hne]
      rw [List.filter_cons, hd, if_pos rfl]
      simp only [List.foldl_cons]
      exact ih r _ (dts_mono_flags S (n + 1) x st r hr)

/-- Folding the downward pass over a root list equals folding it over the
list with duplicate roots after the first occurrence removed. -/
theorem fold_roots_dedup {n : ℕ} (S : SceneGraph n) :
    ∀ (k : ℕ) (rl : List (Fin n)) (st : TState n), rl.length ≤ k →
      rl.foldl (fun a x => downward_tree_pass S (n + 1) x a) st =
      (dedupKeepFirst rl).foldl (fun a x => downward_tree_pass S (n + 1) x a) st := by
  intro k
  induction k with
  | zero =>
    intro rl st hl
    have hnil : rl = [] := List.length_eq_zero.mp (by omega)
    subst hnil
    simp [dedupKeepFirst]
  | succ k ih =>
    intro rl st hl
    match rl with
    | [] => simp [dedupKeepFirst]
    | r :: rest =>
      simp only [dedupKeepFirst, List.foldl_cons]
      have hmark : (downward_tree_pass S (n + 1) r st).2 r = true := dts_marks S n r st
      rw [fold_roots_skip_visited S rest r _ hmark]
      have hlen : (rest.filter (fun y => y ≠ r)).length ≤ k := by
        have h1 : (rest.filter (fun y => y ≠ r)).length ≤ rest.length :=
          List.length_filter_le _ _
        simp only [List.length_cons] at hl
        omega
      exact ih _ _ hlen

/-- C6: for every coherent, acyclic scene forest the hierarchical traversal
lists each body exactly once (no duplicates and every body present), every
parent precedes all of its descendants in the resulting sequence, and the
traversal is deterministic and independent of how often each root is
reached from different starting objects: folding over any object list
equals folding over the root list with repeated roots dropped after their
first occurrence. -/
theorem c6_traversal_correct {n : ℕ} (S : SceneGraph n) (rank : Fin n → ℕ)
    (hC : S.Coherent) (hR : S.RankedBy rank) :
    (populate_heirarchial_tree S).Nodup ∧
    (∀ b : Fin n, b ∈ populate_heirarchial_tree S) ∧
    (∀ p v : Fin n, AncestorOf S p v →
      List.indexOf p (populate_heirarchial_tree S) <
        List.indexOf v (populate_heirarchial_tree S)) ∧
    (∀ objs : List (Fin n),
      populateFromObjs S objs =
        populateRoots S (dedupKeepFirst (objs.map (get_grand_parent S)))) := by
  have h0 : TInv (([], fun _ => false) : TState n) := ⟨List.nodup_nil, by simp⟩
  have hcl0 : ClosedExc S (fun _ => False) (([], fun _ => false) : TState n) :=
    fun v hv => absurd hv Bool.false_ne_true
  have hOrd0 : Orderly S (([], fun _ => false) : TState n) :=
    fun v hv => absurd hv (List.not_mem_nil v)
  obtain ⟨r1, r2, r3, _, r5⟩ :=
    populate_fold_correct S rank hC hR (List.finRange n) ([], fun _ => false) h0 hcl0 hOrd0
  have hres : ∀ b : Fin n,
      (populateFromObjs S (List.finRange n)).2 b = true := by
    intro b
    have hchain := grandParentAux_chain S n b
    exact closed_descend S hC _ r2 b (get_grand_parent S b) hchain
      (r5 b (List.mem_finRange b))
  have hmem : ∀ b : Fin n, b ∈ populate_heirarchial_tree S := by
    intro b
    exact (r1.2 b).mp (hres b)
  refine ⟨r1.1, hmem, ?_, ?_⟩
  · intro p v htg
    induction htg with
    | single h =>
      rename_i v'
      exact (r3 v' (hmem v') p h).2
    | tail _ hstep ih =>
      rename_i b v' _
      exact lt_trans ih (r3 v' (hmem v') b hstep).2
  · intro objs
    unfold populateFromObjs populateRoots
    rw [← List.foldl_map (get_grand_parent S)
      (fun a x => downward_tree_pass S (n + 1) x a) objs]
    exact fold_roots_dedup S (objs.map (get_grand_parent S)).length _ _ le_rfl

/-- C6 witness: the traversal claim instantiated on the concrete three-body
scene. -/
theorem c6_traversal_correct_witness :
    demoScene.Coherent ∧ demoScene.RankedBy (fun i => (i : ℕ)) ∧
    ((populate_heirarchial_tree demoScene).Nodup ∧
     (∀ b : Fin 3, b ∈ populate_heirarchial_tree demoScene) ∧
     (∀ p v : Fin 3, AncestorOf demoScene p v →
       List.indexOf p (populate_heirarchial_tree demoScene) <
         List.indexOf v (populate_heirarchial_tree demoScene)) ∧
     (∀ objs : List (Fin 3),
       populateFromObjs demoScene objs =
         populateRoots demoScene (dedupKeepFirst (objs.map (get_grand_parent demoScene))))) :=
  ⟨by decide, by decide,
   c6_traversal_correct demoScene (fun i => (i : ℕ)) (by decide) (by decide)⟩

/-! ### Geometry kernel: arc cosine comparison helpers -/

/-- The arc cosine exceeds t whenever the argument is below cos t. -/
theorem arccos_gt_of_lt_cos {d t : ℝ} (hd1 : -1 ≤ d) (hd2 : d ≤ 1)
    (htp : t ≤ Real.pi) (h : d < Real.cos t) : t < Real.arccos d := by
  by_contra hcon
  push_neg at hcon
  have h2 : Real.cos t ≤ Real.cos (Real.arccos d) :=
    Real.cos_le_cos_of_nonneg_of_le_pi (Real.arccos_nonneg d) htp hcon
  rw [Real.cos_arccos hd1 hd2] at h2
  linarith

/-- The arc cosine is below t whenever the argument is above cos t. -/
theorem arccos_lt_of_cos_lt {d t : ℝ} (hd1 : -1 ≤ d) (hd2 : d ≤ 1)
    (ht0 : 0 ≤ t) (h : Real.cos t < d) : Real.arccos d < t := by
  by_contra hcon
  push_neg at hcon
  have h2 : Real.cos (Real.arccos d) ≤ Real.cos t :=
    Real.cos_le_cos_of_nonneg_of_le_pi ht0 (Real.arccos_le_pi d) hcon
  rw [Real.cos_arccos hd1 hd2] at h2
  linarith

/-- cos 3.13 is nonpositive (3.13 lies between pi halves). -/
theorem cos_threeonethree_nonpos : Real.cos 3.13 ≤ 0 := by
  apply Real.cos_nonpos_of_pi_div_two_le_of_le
  · have := Real.pi_lt_d2
    norm_num at this ⊢
    linarith
  · have := Real.pi_gt_three
    norm_num
    linarith

/-! ### C3 -/

/-- The three unit coordinate vectors have length one. -/
theorem vec_norm_ex : vec_norm ⟨1, 0, 0⟩ = 1 := by
  unfold vec_norm
  rw [show ((1 : ℝ) ^ 2 + 0 ^ 2 + 0 ^ 2) = 1 by norm_num]
  exact Real.sqrt_one

/-- The angle from the x axis to itself vanishes. -/
theorem vangle_ex_ex : vangle ⟨1, 0, 0⟩ ⟨1, 0, 0⟩ = 0 := by
  unfold vangle
  rw [vec_norm_ex]
  rw [show V3.dot ⟨1, 0, 0⟩ ⟨1, 0, 0⟩ / ((1 : ℝ) * 1) = 1 by
    unfold V3.dot
    norm_num]
  exact Real.arccos_one

/-- C3 counterexample: the unit vectors a = (1,0,0) and
b = (-24/25, 7/25, 0) have dot product -24/25, inside the antiparallel
branch.  The angle from a to the x axis is 0, so the claim prescribes the x
axis as reference, giving the zero cross product and the matrix of a
rotation by pi about the zero axis, with entry (2,2) equal to -1; the code
instead uses the y axis and rotates about (0,0,1) by the angle between a
and b, leaving entry (2,2) equal to 1, a different matrix. -/
theorem c3_rotation_between_cex :
    UnitV ⟨1, 0, 0⟩ ∧ UnitV ⟨-(24 / 25), 7 / 25, 0⟩ ∧
    V3.dot ⟨1, 0, 0⟩ ⟨-(24 / 25), 7 / 25, 0⟩ < -(0.9) ∧
    (rot_matrix_from_vecs ⟨1, 0, 0⟩ ⟨-(24 / 25), 7 / 25, 0⟩).m22 = 1 ∧
    (rotAA Real.pi (V3.cross ⟨1, 0, 0⟩ (claimC3Ref ⟨1, 0, 0⟩))).m22 = -1 ∧
    rot_matrix_from_vecs ⟨1, 0, 0⟩ ⟨-(24 / 25), 7 / 25, 0⟩ ≠
      rotAA Real.pi (V3.cross ⟨1, 0, 0⟩ (claimC3Ref ⟨1, 0, 0⟩)) := by
  have hdot : V3.dot ⟨1, 0, 0⟩ ⟨-(24 / 25), 7 / 25, 0⟩ = -(24 / 25) := by
    unfold V3.dot
    norm_num
  have hcond : ¬ (0.1 < |vangle ⟨1, 0, 0⟩ ⟨1, 0, 0⟩| ∧
      |vangle ⟨1, 0, 0⟩ ⟨1, 0, 0⟩| < 3.13) := by
    rw [vangle_ex_ex]
    norm_num
  have href : claimC3Ref ⟨1, 0, 0⟩ = ⟨1, 0, 0⟩ := by
    unfold claimC3Ref
    rw [if_neg]
    rw [vangle_ex_ex]
    norm_num
  have hcross : V3.cross ⟨1, 0, 0⟩ (claimC3Ref ⟨1, 0, 0⟩) = ⟨0, 0, 0⟩ := by
    rw [href]
    unfold V3.cross
    norm_num
  have hclaim : (rotAA Real.pi (V3.cross ⟨1, 0, 0⟩ (claimC3Ref ⟨1, 0, 0⟩))).m22 = -1 := by
    rw [hcross]
    unfold rotAA normalize3 skew_mat outer3
    show (Real.cos Real.pi * 1 + Real.sin Real.pi * 0) +
      (1 - Real.cos Real.pi) * ((0 : ℝ) / vec_norm ⟨0, 0, 0⟩ * ((0 : ℝ) / vec_norm ⟨0, 0, 0⟩)) = -1
    rw [Real.cos_pi, Real.sin_pi]
    ring
  have hcode : (rot_matrix_from_vecs ⟨1, 0, 0⟩ ⟨-(24 / 25), 7 / 25, 0⟩).m22 = 1 := by
    unfold rot_matrix_from_vecs
    rw [hdot]
    rw [if_neg (by norm_num), if_pos (by norm_num), if_neg hcond]
    have hnc : vec_norm (V3.cross ⟨1, 0, 0⟩ ⟨0, 1, 0⟩) = 1 := by
      unfold V3.cross vec_norm
      norm_num
    unfold rotAA normalize3 skew_mat outer3
    rw [hnc]
    show (Real.cos (vangle ⟨1, 0, 0⟩ ⟨-(24 / 25), 7 / 25, 0⟩) * 1 +
        Real.sin (vangle ⟨1, 0, 0⟩ ⟨-(24 / 25), 7 / 25, 0⟩) * 0) +
      (1 - Real.cos (vangle ⟨1, 0, 0⟩ ⟨-(24 / 25), 7 / 25, 0⟩)) *
        ((V3.cross ⟨1, 0, 0⟩ ⟨0, 1, 0⟩).z / 1 * ((V3.cross ⟨1, 0, 0⟩ ⟨0, 1, 0⟩).z / 1)) = 1
    unfold V3.cross
    norm_num
  refine ⟨by unfold UnitV V3.dot; norm_num, by unfold UnitV V3.dot; norm_num,
    by rw [hdot]; norm_num, hcode, hclaim, ?_⟩
  intro he
  rw [← he] at hclaim
  rw [hcode] at hclaim
  norm_num at hclaim

/-- C3 amended: for unit vectors a and b, rot_matrix_from_vecs returns the
identity when the dot product exceeds 0.9; when the dot product is below
-0.9 it rotates by the angle between a and b (pi only in the exactly
antiparallel case) about the cross of a with the x axis when the angle from
a to the x axis lies strictly between 0.1 and 3.13 radians, and about the
cross of a with the y axis otherwise (a near parallel or antiparallel to
the x axis); in the remaining cases it returns the Rodrigues formula built
from the skew matrix of the cross product. -/
theorem c3_rotation_between_amended (a b : V3) (ha : UnitV a) (hb : UnitV b) :
    (0.9 < V3.dot a b → rot_matrix_from_vecs a b = M3.id) ∧
    (V3.dot a b < -(0.9) →
      ((0.1 < vangle a ⟨1, 0, 0⟩ ∧ vangle a ⟨1, 0, 0⟩ < 3.13) →
        rot_matrix_from_vecs a b = rotAA (vangle a b) (V3.cross a ⟨1, 0, 0⟩)) ∧
      (¬ (0.1 < vangle a ⟨1, 0, 0⟩ ∧ vangle a ⟨1, 0, 0⟩ < 3.13) →
        rot_matrix_from_vecs a b = rotAA (vangle a b) (V3.cross a ⟨0, 1, 0⟩))) ∧
    (-(0.9) ≤ V3.dot a b → V3.dot a b ≤ 0.9 →
      rot_matrix_from_vecs a b =
        M3.id + skew_mat (V3.cross a b)
          + ((1 - V3.dot a b) / vec_norm (V3.cross a b) ^ 2)
              • (skew_mat (V3.cross a b) * skew_mat (V3.cross a b))) := by
  have habs : |vangle a ⟨1, 0, 0⟩| = vangle a ⟨1, 0, 0⟩ :=
    abs_of_nonneg (Real.arccos_nonneg _)
  refine ⟨?_, ?_, ?_⟩
  · intro hd
    unfold rot_matrix_from_vecs
    rw [if_pos (by norm_num; linarith)]
  · intro hd
    constructor
    · intro hcond
      unfold rot_matrix_from_vecs
      rw [if_neg (by norm_num; linarith), if_pos (by norm_num; linarith),
        if_pos (by rw [habs]; exact hcond)]
    · intro hcond
      unfold rot_matrix_from_vecs
      rw [if_neg (by norm_num; linarith), if_pos (by norm_num; linarith),
        if_neg (by rw [habs]; exact hcond)]
  · intro hd1 hd2
    unfold rot_matrix_from_vecs
    rw [if_neg (by norm_num; linarith), if_neg (by norm_num; linarith)]

/-- C3 witness: the aligned instance a = b = (1,0,0), where the claim gives
the identity matrix. -/
theorem c3_rotation_between_amended_witness :
    UnitV (⟨1, 0, 0⟩ : V3) ∧
    ((0.9 < V3.dot ⟨1, 0, 0⟩ ⟨1, 0, 0⟩ →
        rot_matrix_from_vecs ⟨1, 0, 0⟩ ⟨1, 0, 0⟩ = M3.id) ∧
     (V3.dot ⟨1, 0, 0⟩ ⟨1, 0, 0⟩ < -(0.9) →
       ((0.1 < vangle ⟨1, 0, 0⟩ ⟨1, 0, 0⟩ ∧ vangle ⟨1, 0, 0⟩ ⟨1, 0, 0⟩ < 3.13) →
         rot_matrix_from_vecs ⟨1, 0, 0⟩ ⟨1, 0, 0⟩ =
           rotAA (vangle ⟨1, 0, 0⟩ ⟨1, 0, 0⟩) (V3.cross ⟨1, 0, 0⟩ ⟨1, 0, 0⟩)) ∧
       (¬ (0.1 < vangle ⟨1, 0, 0⟩ ⟨1, 0, 0⟩ ∧ vangle ⟨1, 0, 0⟩ ⟨1, 0, 0⟩ < 3.13) →
         rot_matrix_from_vecs ⟨1, 0, 0⟩ ⟨1, 0, 0⟩ =
           rotAA (vangle ⟨1, 0, 0⟩ ⟨1, 0, 0⟩) (V3.cross ⟨1, 0, 0⟩ ⟨0, 1, 0⟩))) ∧
     (-(0.9) ≤ V3.dot ⟨1, 0, 0⟩ ⟨1, 0, 0⟩ → V3.dot ⟨1, 0, 0⟩ ⟨1, 0, 0⟩ ≤ 0.9 →
       rot_matrix_from_vecs ⟨1, 0, 0⟩ ⟨1, 0, 0⟩ =
         M3.id + skew_mat (V3.cross ⟨1, 0, 0⟩ ⟨1, 0, 0⟩)
           + ((1 - V3.dot ⟨1, 0, 0⟩ ⟨1, 0, 0⟩) /
                vec_norm (V3.cross ⟨1, 0, 0⟩ ⟨1, 0, 0⟩) ^ 2)
               • (skew_mat (V3.cross ⟨1, 0, 0⟩ ⟨1, 0, 0⟩)
                   * skew_mat (V3.cross ⟨1, 0, 0⟩ ⟨1, 0, 0⟩)))) := by
  have h : UnitV (⟨1, 0, 0⟩ : V3) := by unfold UnitV V3.dot; norm_num
  exact ⟨h, c3_rotation_between_amended ⟨1, 0, 0⟩ ⟨1, 0, 0⟩ h h⟩

/-! ### C1: matrix and transform algebra helpers -/

/-- Addition on M3 is entrywise. -/
theorem M3.add_def (a b : M3) : a + b = M3.add a b := rfl

/-- Scalar action on M3 is entrywise. -/
theorem M3.smul_def (s : ℝ) (a : M3) : s • a = M3.smul s a := rfl

/-- Multiplication on M3 is M3.mul. -/
theorem M3.mul_def (a b : M3) : a * b = M3.mul a b := rfl

/-- The identity is a left unit. -/
theorem M3.id_mul (m : M3) : M3.id * m = m := by
  cases m
  simp only [M3.mul_def, M3.mul, M3.id, M3.mk.injEq]
  norm_num

/-- The identity is a right unit. -/
theorem M3.mul_id (m : M3) : m * M3.id = m := by
  cases m
  simp only [M3.mul_def, M3.mul, M3.id, M3.mk.injEq]
  norm_num

/-- The adjugate inverse of the identity is the identity. -/
theorem M3.inv_id : M3.inv M3.id = M3.id := by
  simp only [M3.inv, M3.det, M3.id, M3.smul, M3.mk.injEq]
  norm_num

/-- Rotation part of a product of homogeneous transforms. -/
theorem T4.mul_r (a b : T4) : (a * b).r = a.r * b.r := rfl

/-- Rotation part of the identity transform. -/
theorem T4.idT_r : T4.idT.r = M3.id := rfl

/-- Rotation part of a pure rotation. -/
theorem T4.ofRot_r (m : M3) : (T4.ofRot m).r = m := rfl

/-- Rotation part of a pure translation. -/
theorem T4.ofTrans_r (v : V3) : (T4.ofTrans v).r = M3.id := rfl

/-- Rotation part of an inverse transform. -/
theorem T4.inv_r (a : T4) : (T4.inv a).r = M3.inv a.r := rfl

/-- The rotation part of the reconstructed child-in-parent transform with
identity parent world pose: offset rotation about the parent axis composed
with the child-axis-to-parent-axis rotation; the pivot translations do not
contribute. -/
theorem import_rot_part (pp cp paxis caxis : V3) (t : ℝ) :
    (get_child_in_parent_transform T4.idT T4.idT pp paxis cp caxis t).r =
      rotAA t paxis * (get_rot_mat_from_vecs caxis paxis).1 := by
  unfold get_child_in_parent_transform
  simp only [T4.mul_r, T4.idT_r, T4.ofRot_r, T4.ofTrans_r, T4.inv_r, M3.inv_id,
    M3.id_mul, M3.mul_id]

/-- Basis vectors are unit length. -/
theorem basisV_norm (i : Fin 3) : vec_norm (basisV i) = 1 := by
  fin_cases i <;>
    · unfold vec_norm basisV
      norm_num

/-- Basis vectors have unit dot product with themselves. -/
theorem basisV_dot_self (i : Fin 3) : V3.dot (basisV i) (basisV i) = 1 := by
  fin_cases i <;>
    · unfold V3.dot basisV
      norm_num

/-- The rotation by a zero angle is the identity (whatever the axis). -/
theorem rotAA_zero (axis : V3) : rotAA 0 axis = M3.id := by
  unfold rotAA
  simp only [Real.cos_zero, Real.sin_zero, M3.add_def, M3.smul_def, M3.add, M3.smul,
    M3.id, M3.mk.injEq]
  norm_num

/-- The canonical rotation of a basis vector onto itself is the identity. -/
theorem rot_matrix_from_vecs_basis_self (i : Fin 3) :
    rot_matrix_from_vecs (basisV i) (basisV i) = M3.id := by
  unfold rot_matrix_from_vecs
  rw [basisV_dot_self i]
  rw [if_pos (by norm_num)]

/-- The angle from a basis vector to itself vanishes. -/
theorem vangle_basis_self (i : Fin 3) : vangle (basisV i) (basisV i) = 0 := by
  unfold vangle
  rw [basisV_norm i, basisV_dot_self i]
  rw [show (1 : ℝ) / (1 * 1) = 1 by norm_num]
  exact Real.arccos_one

/-- The import-side rotation from a basis vector to itself is the
identity. -/
theorem get_rot_mat_basis_self (i : Fin 3) :
    (get_rot_mat_from_vecs (basisV i) (basisV i)).1 = M3.id := by
  unfold get_rot_mat_from_vecs
  rw [vangle_basis_self i]
  rw [if_pos (by norm_num)]
  exact rotAA_zero _

/-- Axis extracted from a rotation about a basis vector by an angle in
(0, pi): the basis vector itself. -/
theorem to_axis_angle_rotAA_basis_fst (i : Fin 3) (t : ℝ) (h1 : 0 < t)
    (h2 : t < Real.pi) : (to_axis_angle (rotAA t (basisV i))).1 = basisV i := by
  have hsin : 0 < Real.sin t := Real.sin_pos_of_pos_of_lt_pi h1 h2
  have hs2 : Real.sqrt (Real.sin t ^ 2) = Real.sin t := by
    rw [Real.sqrt_sq hsin.le]
  fin_cases i <;>
    · unfold to_axis_angle rotAA normalize3 vec_norm basisV skew_mat outer3
      simp only [M3.add_def, M3.smul_def, M3.add, M3.smul, M3.id, V3.mk.injEq]
      norm_num
      rw [hs2]
      exact div_self hsin.ne'

/-- Angle extracted from a rotation about a basis vector by an angle in
(0, pi): the angle itself. -/
theorem to_axis_angle_rotAA_basis_snd (i : Fin 3) (t : ℝ) (h1 : 0 < t)
    (h2 : t < Real.pi) : (to_axis_angle (rotAA t (basisV i))).2 = t := by
  have harc : Real.arccos (Real.cos t) = t := Real.arccos_cos h1.le h2.le
  fin_cases i <;>
    · unfold to_axis_angle rotAA normalize3 vec_norm basisV skew_mat outer3
      simp only [M3.add_def, M3.smul_def, M3.add, M3.smul, M3.id]
      norm_num
      all_goals convert harc using 2
      all_goals ring

/-- C1 amended: when the extracted parent axis coincides exactly with the
canonical child axis (so the canonical rotation is exactly the identity),
a joint whose true relative rotation is a rotation about that axis by an
angle in (0.01, pi) exports exactly that angle as its offset, and the
importer reconstruction (parent pivot translation, offset rotation about
the parent axis, child-axis-to-parent-axis rotation, inverse child pivot)
reproduces the original relative rotation exactly, for arbitrary pivots. -/
theorem c1_offset_roundtrip_amended (i : Fin 3) (t : ℝ) (pp cp : V3)
    (h1 : 0.01 < t) (h2 : t < Real.pi) :
    compute_joint_offset (basisV i) (basisV i) (rotAA t (basisV i)) = some t ∧
    (get_child_in_parent_transform T4.idT T4.idT pp (basisV i) cp (basisV i) t).r =
      rotAA t (basisV i) := by
  have h0 : 0 < t := by linarith
  constructor
  · simp only [compute_joint_offset]
    rw [rot_matrix_from_vecs_basis_self i, M3.inv_id, M3.id_mul]
    rw [to_axis_angle_rotAA_basis_snd i t h0 h2, to_axis_angle_rotAA_basis_fst i t h0 h2]
    rw [basisV_dot_self i]
    rw [abs_of_pos h0]
    rw [if_pos h1]
    rw [if_pos (by norm_num)]
  · rw [import_rot_part, get_rot_mat_basis_self i, M3.mul_id]

/-- C1 amended witness: the revolute axis (index 2) with angle 1. -/
theorem c1_offset_roundtrip_amended_witness :
    (0.01 : ℝ) < 1 ∧ (1 : ℝ) < Real.pi ∧
    (compute_joint_offset (basisV 2) (basisV 2) (rotAA 1 (basisV 2)) = some 1 ∧
     (get_child_in_parent_transform T4.idT T4.idT ⟨0, 0, 0⟩ (basisV 2) ⟨0, 0, 0⟩
        (basisV 2) 1).r = rotAA 1 (basisV 2)) := by
  have hpi : (1 : ℝ) < Real.pi := by
    have := Real.pi_gt_three
    linarith
  exact ⟨by norm_num, hpi,
    c1_offset_roundtrip_amended 2 1 ⟨0, 0, 0⟩ ⟨0, 0, 0⟩ (by norm_num) hpi⟩

/-- Normalisation fixes unit vectors. -/
theorem normalize3_of_norm_one (v : V3) (h : vec_norm v = 1) : normalize3 v = v := by
  unfold normalize3
  rw [h]
  simp

/-- Axis-angle rotation about a unit axis in closed form. -/
theorem rotAA_of_norm_one (t : ℝ) (v : V3) (h : vec_norm v = 1) :
    rotAA t v = Real.cos t • M3.id + Real.sin t • skew_mat v
      + (1 - Real.cos t) • outer3 v v := by
  unfold rotAA
  rw [normalize3_of_norm_one v h]

/-- Axis-angle rotation when the sine of the angle equals the length of the
axis: the normalisation cancels into a fully explicit form. -/
theorem rotAA_of_sin_eq_norm (t : ℝ) (v : V3) (hs : Real.sin t = vec_norm v)
    (h0 : vec_norm v ≠ 0) :
    rotAA t v = Real.cos t • M3.id + skew_mat v
      + ((1 - Real.cos t) / vec_norm v ^ 2) • outer3 v v := by
  unfold rotAA normalize3 skew_mat outer3
  simp only [M3.add_def, M3.smul_def, M3.add, M3.smul, M3.id, M3.mk.injEq]
  rw [hs]
  refine ⟨?_, ?_, ?_, ?_, ?_, ?_, ?_, ?_, ?_⟩ <;> field_simp <;> ring

/-- The extracted parent axis of the C1 counterexample scene (the third
column of Rcp0) is a unit vector. -/
theorem vec_norm_col2_Rcp0 : vec_norm (M3.col2 Rcp0) = 1 := by
  show Real.sqrt (((28 : ℝ)/125) ^ 2 + ((336 : ℝ)/3125) ^ 2 + ((3027 : ℝ)/3125) ^ 2) = 1
  rw [show ((28 : ℝ)/125) ^ 2 + ((336 : ℝ)/3125) ^ 2 + ((3027 : ℝ)/3125) ^ 2 = 1 by norm_num]
  exact Real.sqrt_one

/-- Cosine of the C1 offset angle. -/
theorem cos_arccos_threefifth : Real.cos (Real.arccos (3/5)) = 3/5 :=
  Real.cos_arccos (by norm_num) (by norm_num)

/-- Sine of the C1 offset angle. -/
theorem sin_arccos_threefifth : Real.sin (Real.arccos (3/5)) = 4/5 := by
  rw [Real.sin_arccos]
  rw [show (1 : ℝ) - (3/5) ^ 2 = (4/5) ^ 2 by norm_num]
  exact Real.sqrt_sq (by norm_num)

/-- The angle between the canonical z axis and the extracted parent axis
of the C1 scene. -/
theorem vangle_e3_col2_Rcp0 :
    vangle (basisV 2) (M3.col2 Rcp0) = Real.arccos (3027/3125) := by
  have hd : V3.dot (basisV 2) (M3.col2 Rcp0) = 3027/3125 := by
    norm_num [V3.dot, basisV, M3.col2, Rcp0]
  unfold vangle
  rw [hd, basisV_norm 2, vec_norm_col2_Rcp0]
  norm_num

/-- The import-side canonical angle of the C1 scene exceeds the 0.1 branch
threshold. -/
theorem arccos_col2_gt : 0.1 < Real.arccos (3027/3125) := by
  have h1 : 1 - (0.1 : ℝ) ^ 2 / 2 ≤ Real.cos 0.1 := Real.one_sub_sq_div_two_le_cos
  have hc : (3027/3125 : ℝ) < Real.cos 0.1 := by nlinarith
  exact arccos_gt_of_lt_cos (by norm_num) (by norm_num)
    (by linarith [Real.pi_gt_three]) hc

/-- The import-side canonical angle of the C1 scene is below the 3.13
antiparallel threshold. -/
theorem arccos_col2_lt : Real.arccos (3027/3125) < 3.13 := by
  have hc : Real.cos 3.13 < (3027/3125 : ℝ) :=
    lt_of_le_of_lt cos_threeonethree_nonpos (by norm_num)
  exact arccos_lt_of_cos_lt (by norm_num) (by norm_num) (by norm_num) hc

/-- The exported C1 offset angle exceeds the 0.01 export threshold. -/
theorem arccos_threefifth_gt : 0.01 < Real.arccos (3/5) := by
  have h1 : 1 - (0.01 : ℝ) ^ 2 / 2 ≤ Real.cos 0.01 := Real.one_sub_sq_div_two_le_cos
  have hc : (3/5 : ℝ) < Real.cos 0.01 := by nlinarith
  exact arccos_gt_of_lt_cos (by norm_num) (by norm_num)
    (by linarith [Real.pi_gt_three]) hc

/-- Axis-angle extraction of the C1 relative rotation: the unit axis
(0, 7/25, 24/25) and the angle arccos(3/5). -/
theorem to_axis_angle_Rcp0 :
    to_axis_angle Rcp0 = ((⟨0, 7/25, 24/25⟩ : V3), Real.arccos (3/5)) := by
  have hn : vec_norm ⟨(0 : ℝ), 28/125, 96/125⟩ = 4/5 := by
    show Real.sqrt ((0 : ℝ) ^ 2 + ((28 : ℝ)/125) ^ 2 + ((96 : ℝ)/125) ^ 2) = 4/5
    rw [show (0 : ℝ) ^ 2 + ((28 : ℝ)/125) ^ 2 + ((96 : ℝ)/125) ^ 2 = ((4 : ℝ)/5) ^ 2 by
      norm_num]
    exact Real.sqrt_sq (by norm_num)
  have hv : (⟨(Rcp0.m21 - Rcp0.m12) / 2, (Rcp0.m02 - Rcp0.m20) / 2,
      (Rcp0.m10 - Rcp0.m01) / 2⟩ : V3) = ⟨0, 28/125, 96/125⟩ := by
    norm_num [Rcp0]
  unfold to_axis_angle
  rw [hv, Prod.mk.injEq]
  constructor
  · unfold normalize3
    rw [hn]
    norm_num
  · norm_num [Rcp0]

/-- The export-side canonical rotation of the C1 scene takes the identity
branch: the extracted parent axis is inside the 0.1 dot tolerance of the
canonical axis. -/
theorem rmfv_e3_col2_Rcp0 :
    rot_matrix_from_vecs (basisV 2) (M3.col2 Rcp0) = M3.id := by
  have hd : V3.dot (basisV 2) (M3.col2 Rcp0) = 3027/3125 := by
    norm_num [V3.dot, basisV, M3.col2, Rcp0]
  unfold rot_matrix_from_vecs
  rw [hd, if_pos (by norm_num)]

/-- The import-side canonical rotation of the C1 scene: the rotation by
arccos(3027/3125) about the cross product of the canonical axis with the
extracted parent axis. -/
theorem grm_e3_col2_Rcp0 :
    (get_rot_mat_from_vecs (basisV 2) (M3.col2 Rcp0)).1 =
      rotAA (Real.arccos (3027/3125)) ⟨-336/3125, 28/125, 0⟩ := by
  have hcr : V3.cross (basisV 2) (M3.col2 Rcp0) = ⟨-336/3125, 28/125, 0⟩ := by
    norm_num [V3.cross, basisV, M3.col2, Rcp0]
  have habs : |Real.arccos (3027/3125)| = Real.arccos (3027/3125) :=
    abs_of_nonneg (Real.arccos_nonneg _)
  unfold get_rot_mat_from_vecs
  rw [vangle_e3_col2_Rcp0, habs,
    if_neg (not_le.mpr arccos_col2_gt), if_neg (not_le.mpr arccos_col2_lt), hcr]

/-- The length of the import-side rotation axis of the C1 scene. -/
theorem vec_norm_w_C1 :
    vec_norm ⟨(-336 : ℝ)/3125, 28/125, 0⟩ = Real.sqrt (602896/9765625) := by
  show Real.sqrt (((-336 : ℝ)/3125) ^ 2 + ((28 : ℝ)/125) ^ 2 + (0 : ℝ) ^ 2) =
    Real.sqrt (602896/9765625)
  rw [show ((-336 : ℝ)/3125) ^ 2 + ((28 : ℝ)/125) ^ 2 + (0 : ℝ) ^ 2 =
    (602896 : ℝ)/9765625 by norm_num]

/-- Sine of the import-side canonical angle of the C1 scene. -/
theorem sin_arccos_col2 :
    Real.sin (Real.arccos (3027/3125)) = Real.sqrt (602896/9765625) := by
  rw [Real.sin_arccos]
  rw [show (1 : ℝ) - (3027/3125) ^ 2 = (602896 : ℝ)/9765625 by norm_num]

/-- Closed rational form of the import-side canonical rotation of the C1
scene. -/
theorem rotAA_w_eval :
    rotAA (Real.arccos (3027/3125)) ⟨(-336 : ℝ)/3125, 28/125, 0⟩ =
      (3027/3125 : ℝ) • M3.id + skew_mat ⟨-336/3125, 28/125, 0⟩
        + (3125/6152 : ℝ) • outer3 ⟨-336/3125, 28/125, 0⟩ ⟨-336/3125, 28/125, 0⟩ := by
  have hs : Real.sin (Real.arccos (3027/3125)) =
      vec_norm ⟨(-336 : ℝ)/3125, 28/125, 0⟩ := by
    rw [vec_norm_w_C1]
    exact sin_arccos_col2
  have h0 : vec_norm ⟨(-336 : ℝ)/3125, 28/125, 0⟩ ≠ 0 := by
    rw [vec_norm_w_C1]
    exact Real.sqrt_ne_zero'.mpr (by norm_num)
  rw [rotAA_of_sin_eq_norm _ _ hs h0, vec_norm_w_C1,
    Real.cos_arccos (by norm_num) (by norm_num),
    Real.sq_sqrt (by norm_num : (0 : ℝ) ≤ 602896/9765625),
    show ((1 : ℝ) - 3027/3125) / ((602896 : ℝ)/9765625) = 3125/6152 by norm_num]

/-- Closed rational form of the offset rotation about the extracted parent
axis of the C1 scene. -/
theorem rotAA_pC_eval :
    rotAA (Real.arccos (3/5)) (M3.col2 Rcp0) =
      (3/5 : ℝ) • M3.id + (4/5 : ℝ) • skew_mat (M3.col2 Rcp0)
        + (2/5 : ℝ) • outer3 (M3.col2 Rcp0) (M3.col2 Rcp0) := by
  rw [rotAA_of_norm_one _ _ vec_norm_col2_Rcp0, cos_arccos_threefifth,
    sin_arccos_threefifth, show (1 : ℝ) - 3/5 = 2/5 by norm_num]

/-- C1 counterexample: a revolute joint (canonical axis z) whose true
child-in-parent rotation Rcp0 turns by arccos(3/5) about the unit axis
(0, 7/25, 24/25). The extracted parent axis (third column of Rcp0) has dot
3027/3125 with the canonical axis, inside the 0.1 identity tolerance of
rot_matrix_from_vecs, so the export compares Rcp0 against the identity and
emits the non-zero offset arccos(3/5); the importer instead composes the
offset rotation about the parent axis with the genuine canonical rotation
from get_rot_mat_from_vecs (whose angle arccos(3027/3125) lies outside its
own 0.1 tolerance), and the reconstructed rotation misses Rcp0 in entry
(0,0) by more than 1/50 - far beyond the exporter's three-decimal rounding
tolerance, refuting the round-trip law. -/
theorem c1_offset_roundtrip_cex :
    compute_joint_offset (basisV 2) (M3.col2 Rcp0) Rcp0 = some (Real.arccos (3/5)) ∧
    Real.arccos (3/5) ≠ 0 ∧
    1/50 < Rcp0.m00 -
      (get_child_in_parent_transform T4.idT T4.idT ⟨0, 0, 0⟩ (M3.col2 Rcp0) ⟨0, 0, 0⟩
         (basisV 2) (Real.arccos (3/5))).r.m00 := by
  refine ⟨?_, ?_, ?_⟩
  · simp only [compute_joint_offset, rmfv_e3_col2_Rcp0, M3.inv_id, M3.id_mul,
      to_axis_angle_Rcp0]
    rw [abs_of_nonneg (Real.arccos_nonneg _), if_pos arccos_threefifth_gt]
    have hd : V3.dot (basisV 2) (⟨0, 7/25, 24/25⟩ : V3) = 24/25 := by
      norm_num [V3.dot, basisV]
    rw [hd, if_pos (by rw [abs_of_nonneg (by norm_num : (0 : ℝ) ≤ 1 - 24/25)]; norm_num)]
  · intro h
    rw [Real.arccos_eq_zero] at h
    norm_num at h
  · rw [import_rot_part, grm_e3_col2_Rcp0, rotAA_pC_eval, rotAA_w_eval]
    norm_num [M3.mul_def, M3.add_def, M3.smul_def, M3.mul, M3.add, M3.smul, M3.id,
      skew_mat, outer3, M3.col2, Rcp0]
